import Mathlib

/-!
Verification development for the Cutroom pipeline orchestrator.

The definitions below are a shallow embedding of the TypeScript source:
  - src/lib/pipeline/manager.ts   (stage order, scheduler operations)
  - src/lib/token/config.ts       (attribution weights, token distribution)
  - src/app/api/... route handlers (input guards wrapped around the manager)

Conventions of the embedding:
  - Stage names are strings, as in the source, where StageName is a string
    enum; statuses are finite inductives mirroring the Prisma enums.
  - The database rows of one pipeline (the pipeline record, its stage rows
    and its attribution rows) are collected in one Pipeline structure;
    prisma updates keyed by the unique (pipelineId, name) pair become
    updates of the stage list keyed by name.
  - Fallible operations return Except String with the literal error
    messages thrown or returned by the source; an error result leaves the
    state untouched, which models that the source throws before writing.
  - Timestamps (claimedAt, startedAt, completedAt, createdAt) are omitted:
    no claim refers to them.  JSON stage output is modelled as an opaque
    string.
-/

namespace Cutroom

/-- Stage statuses, from the Prisma StageStatus enum. -/
inductive StageStatus
  | PENDING
  | CLAIMED
  | RUNNING
  | COMPLETE
  | FAILED
  | SKIPPED
deriving DecidableEq, Repr, Inhabited

/-- Pipeline statuses, from the Prisma PipelineStatus enum. -/
inductive PipelineStatus
  | DRAFT
  | RUNNING
  | COMPLETE
  | FAILED
deriving DecidableEq, Repr, Inhabited

/-- One stage row of the stages table. -/
structure Stage where
  name : String
  status : StageStatus
  agentId : Option String := none
  agentName : Option String := none
  output : Option String := none
  artifacts : List String := []
  errorText : Option String := none
deriving DecidableEq, Repr, Inhabited

/-- One attribution row.  The percentage is the static registry weight of
the stage at the time of recording. -/
structure Attribution where
  stageName : String
  agentId : Option String
  agentName : Option String
  percentage : Nat
deriving DecidableEq, Repr, Inhabited

/-- One pipeline record together with its stage rows (in creation order,
which is the registry order) and its attribution rows (in insertion
order). -/
structure Pipeline where
  topic : String
  description : Option String := none
  status : PipelineStatus
  currentStage : String
  stages : List Stage
  attributions : List Attribution := []
deriving DecidableEq, Repr, Inhabited

/-- STAGE_ORDER from src/lib/pipeline/manager.ts. -/
def STAGE_ORDER : List String :=
  ["RESEARCH", "SCRIPT", "VOICE", "MUSIC", "VISUAL", "EDITOR", "PUBLISH"]

/-- JavaScript Array.indexOf: index of the first occurrence, -1 when the
element does not occur. -/
def tsIndexOf (l : List String) (x : String) : Int :=
  match l with
  | [] => -1
  | y :: ys =>
    if y = x then 0
    else
      let r := tsIndexOf ys x
      if r = -1 then -1 else r + 1

/-- getNextStageName from src/lib/pipeline/manager.ts: the stage following
the given one in STAGE_ORDER, none for the last stage and for a name that
is not in STAGE_ORDER. -/
def getNextStageName (current : String) : Option String :=
  let idx := tsIndexOf STAGE_ORDER current
  if idx = -1 ∨ idx = (STAGE_ORDER.length : Int) - 1 then none
  else STAGE_ORDER.get? (idx + 1).toNat

/-- STAGE_TOKEN_WEIGHTS from src/lib/token/config.ts.  The TypeScript type
keyof typeof STAGE_TOKEN_WEIGHTS restricts callers to the seven registry
names, so the catch-all branch is unreachable from typed code. -/
def STAGE_TOKEN_WEIGHTS (stageName : String) : Nat :=
  if stageName = "RESEARCH" then 10
  else if stageName = "SCRIPT" then 25
  else if stageName = "VOICE" then 20
  else if stageName = "MUSIC" then 10
  else if stageName = "VISUAL" then 15
  else if stageName = "EDITOR" then 15
  else if stageName = "PUBLISH" then 5
  else 0

/-- JavaScript Map.set on an association list with unique keys: replace
the value of an existing key in place, otherwise append at the end. -/
def mapSet (m : List (String × Nat)) (k : String) (v : Nat) :
    List (String × Nat) :=
  match m with
  | [] => [(k, v)]
  | (k2, v2) :: rest =>
    if k2 = k then (k, v) :: rest else (k2, v2) :: mapSet rest k v

/-- JavaScript Map.get: the value of the first (unique) matching key. -/
def mapGet (m : List (String × Nat)) (k : String) : Option Nat :=
  match m with
  | [] => none
  | (k2, v2) :: rest => if k2 = k then some v2 else mapGet rest k

/-- calculateTokenDistribution from src/lib/token/config.ts.  Totals are
Nat: the source uses bigint, and every claim restricts to non-negative
totals, on which bigint division (truncation) agrees with Nat floor
division.  An attribution entry is a pair of stage name and agent
address. -/
def calculateTokenDistribution (totalTokens : Nat)
    (attributions : List (String × String)) : List (String × Nat) :=
  attributions.foldl
    (fun dist att =>
      let amount := totalTokens * STAGE_TOKEN_WEIGHTS att.1 / 100
      mapSet dist att.2 ((mapGet dist att.2).getD 0 + amount))
    []

/-- Sum of the values of a distribution map. -/
def sumValues (m : List (String × Nat)) : Nat :=
  (m.map Prod.snd).sum

/-- prisma.stage.findUnique keyed by (pipelineId, name): the unique stage
row of this pipeline with the given name. -/
def findStage (p : Pipeline) (sn : String) : Option Stage :=
  p.stages.find? (fun s => s.name = sn)

/-- prisma.stage.update keyed by (pipelineId, name): rewrite the stage row
with the given name.  The stages table has a unique constraint on
(pipelineId, name), so at most one row is affected. -/
def setStage (p : Pipeline) (sn : String) (f : Stage → Stage) : Pipeline :=
  { p with stages := p.stages.map (fun s => if s.name = sn then f s else s) }

/-- createPipeline from src/lib/pipeline/manager.ts: a DRAFT pipeline with
one PENDING stage per STAGE_ORDER entry and currentStage RESEARCH. -/
def createPipeline (topic : String) (description : Option String) :
    Pipeline :=
  { topic := topic
    description := description
    status := PipelineStatus.DRAFT
    currentStage := "RESEARCH"
    stages := STAGE_ORDER.map (fun n => { name := n, status := StageStatus.PENDING })
    attributions := [] }

/-- POST /api/pipelines: rejects a missing or empty topic (falsy in the
source) before calling createPipeline. -/
def createPipelineRoute (topic : String) (description : Option String) :
    Except String Pipeline :=
  if topic = "" then Except.error "Topic is required"
  else Except.ok (createPipeline topic description)

/-- startPipeline from src/lib/pipeline/manager.ts: unconditionally sets
the pipeline status to RUNNING. -/
def startPipeline (p : Pipeline) : Pipeline :=
  { p with status := PipelineStatus.RUNNING }

/-- POST /api/pipelines/:id/start: only a DRAFT pipeline may be started. -/
def startPipelineRoute (p : Pipeline) : Except String Pipeline :=
  if p.status ≠ PipelineStatus.DRAFT then Except.error "Pipeline already started"
  else Except.ok (startPipeline p)

/-- claimStage from src/lib/pipeline/manager.ts.  Checks, in source order:
the pipeline is RUNNING; the stage row exists; the stage is PENDING; and,
when the stage has a strictly positive index in STAGE_ORDER, the stage row
named by the preceding STAGE_ORDER entry exists and is COMPLETE or
SKIPPED.  On success the stage becomes CLAIMED and carries the agent.
Returns the updated pipeline state together with the updated stage row. -/
def claimStage (p : Pipeline) (stageName agentId agentName : String) :
    Except String (Pipeline × Stage) :=
  if p.status ≠ PipelineStatus.RUNNING then
    Except.error "Pipeline not in running state"
  else
    match findStage p stageName with
    | none => Except.error "Stage not found"
    | some stage =>
      if stage.status ≠ StageStatus.PENDING then
        Except.error "Stage not available for claiming"
      else
        let stageIdx := tsIndexOf STAGE_ORDER stageName
        let doClaim : Pipeline × Stage :=
          (setStage p stageName (fun s =>
             { s with status := StageStatus.CLAIMED
                      agentId := some agentId
                      agentName := some agentName }),
           { stage with status := StageStatus.CLAIMED
                        agentId := some agentId
                        agentName := some agentName })
        if stageIdx > 0 then
          match (STAGE_ORDER.get? (stageIdx - 1).toNat).bind (findStage p) with
          | some prevStage =>
            if prevStage.status = StageStatus.COMPLETE ∨
               prevStage.status = StageStatus.SKIPPED then
              Except.ok doClaim
            else Except.error "Previous stage not complete"
          | none => Except.error "Previous stage not complete"
        else Except.ok doClaim

/-- Modelled from the spec: the HTTP start-stage guard is not under src/
(the manager function startStage writes RUNNING unconditionally; the spec
operation start_stage transitions CLAIMED to RUNNING and rejects
otherwise). -/
def startStageOp (p : Pipeline) (sn : String) :
    Except String (Pipeline × Stage) :=
  match findStage p sn with
  | none => Except.error "Stage not found"
  | some st =>
    if st.status = StageStatus.CLAIMED then
      Except.ok
        (setStage p sn (fun s => { s with status := StageStatus.RUNNING }),
         { st with status := StageStatus.RUNNING })
    else Except.error "Stage not claimed"

/-- completeStage from src/lib/pipeline/manager.ts: set the stage row to
COMPLETE with its output and artifacts; then, when getNextStageName of the
stage name is none, set the pipeline status to COMPLETE, otherwise advance
currentStage to the next name.  The manager itself performs no status
check on the stage or the pipeline. -/
def completeStage (p : Pipeline) (sn : String) (output : String)
    (artifacts : List String) : Except String (Pipeline × Stage) :=
  match findStage p sn with
  | none => Except.error "Stage not found"
  | some st =>
    let st1 : Stage :=
      { st with status := StageStatus.COMPLETE
                output := some output
                artifacts := artifacts }
    let p1 := setStage p sn (fun s =>
      { s with status := StageStatus.COMPLETE
               output := some output
               artifacts := artifacts })
    match getNextStageName st.name with
    | none => Except.ok ({ p1 with status := PipelineStatus.COMPLETE }, st1)
    | some nxt => Except.ok ({ p1 with currentStage := nxt }, st1)

/-- POST /api/stages/:id/complete: the stage must exist and be CLAIMED or
RUNNING, otherwise the request is rejected without mutation; then the
manager completeStage runs.  The required-output body check is absorbed by
the typed output parameter. -/
def completeStageRoute (p : Pipeline) (sn : String) (output : String)
    (artifacts : List String) : Except String (Pipeline × Stage) :=
  match findStage p sn with
  | none => Except.error "Stage not found"
  | some st =>
    if st.status = StageStatus.CLAIMED ∨ st.status = StageStatus.RUNNING then
      completeStage p sn output artifacts
    else Except.error "Stage cannot be completed"

/-- Modelled from the spec: the attribution append triggered by stage
completion is not under src/ — the complete route only notes that
attribution is recorded automatically, and the recording code (spec
operation record of the Attribution Engine) lives in the database layer.
Per the spec it appends one Attribution with the registry weight for the
completed stage and is idempotent on (pipeline_id, stage_name). -/
def recordAttribution (p : Pipeline) (st : Stage) : Pipeline :=
  if p.attributions.any (fun a => a.stageName = st.name) then p
  else
    { p with attributions := p.attributions ++
        [{ stageName := st.name
           agentId := st.agentId
           agentName := st.agentName
           percentage := STAGE_TOKEN_WEIGHTS st.name }] }

/-- The complete route followed by the attribution append of the
Attribution Engine, as one atomic unit. -/
def completeStageRouteAttr (p : Pipeline) (sn : String) (output : String)
    (artifacts : List String) : Except String (Pipeline × Stage) :=
  match completeStageRoute p sn output artifacts with
  | Except.error e => Except.error e
  | Except.ok q => Except.ok (recordAttribution q.1 q.2, q.2)

/-- failStage from src/lib/pipeline/manager.ts: set the stage row to
FAILED with the error text, then unconditionally set the pipeline status
to FAILED. -/
def failStage (p : Pipeline) (sn : String) (err : String) :
    Except String (Pipeline × Stage) :=
  match findStage p sn with
  | none => Except.error "Stage not found"
  | some st =>
    let p1 := setStage p sn (fun s =>
      { s with status := StageStatus.FAILED, errorText := some err })
    Except.ok ({ p1 with status := PipelineStatus.FAILED },
               { st with status := StageStatus.FAILED, errorText := some err })

/-- Modelled from the spec: the HTTP fail-stage guard is not under src/;
the spec operation fail_stage transitions CLAIMED or RUNNING to FAILED and
rejects otherwise.  The effect on success is the manager failStage. -/
def failStageOp (p : Pipeline) (sn : String) (err : String) :
    Except String (Pipeline × Stage) :=
  match findStage p sn with
  | none => Except.error "Stage not found"
  | some st =>
    if st.status = StageStatus.CLAIMED ∨ st.status = StageStatus.RUNNING then
      failStage p sn err
    else Except.error "Stage cannot be failed"

/-- The body of the stage loop of getAvailableStages: the stage at index i
is emitted when it is PENDING and either is the first stage or the stage
at index i-1 is COMPLETE or SKIPPED. -/
def qualifiesAt (p : Pipeline) (i : Nat) : Option Stage :=
  match p.stages.get? i with
  | none => none
  | some stage =>
    if stage.status ≠ StageStatus.PENDING then none
    else if i = 0 then some stage
    else
      match p.stages.get? (i - 1) with
      | none => none
      | some prev =>
        if prev.status = StageStatus.COMPLETE ∨
           prev.status = StageStatus.SKIPPED then some stage
        else none

/-- The inner loop of getAvailableStages over the ordered stages of one
pipeline. -/
def availableInPipeline (p : Pipeline) : List Stage :=
  (List.range p.stages.length).filterMap (qualifiesAt p)

/-- getAvailableStages from src/lib/pipeline/manager.ts: for every RUNNING
pipeline, in the order the pipelines are stored (the query has no order
clause), the PENDING stages whose predecessor is COMPLETE or SKIPPED, in
stage order.  Each emitted stage is paired with its pipeline. -/
def getAvailableStages (dbPipelines : List Pipeline) :
    List (Stage × Pipeline) :=
  (dbPipelines.filter (fun p => p.status = PipelineStatus.RUNNING)).flatMap
    (fun p => (availableInPipeline p).map (fun s => (s, p)))

/-! ## Theorems -/

/-- C9: the seven stage attribution weights of the built-in registry sum
to exactly 100. -/
theorem stage_weights_sum_to_100 :
    (STAGE_ORDER.map STAGE_TOKEN_WEIGHTS).sum = 100 ∧
    STAGE_TOKEN_WEIGHTS "RESEARCH" = 10 ∧ STAGE_TOKEN_WEIGHTS "SCRIPT" = 25 ∧
    STAGE_TOKEN_WEIGHTS "VOICE" = 20 ∧ STAGE_TOKEN_WEIGHTS "MUSIC" = 10 ∧
    STAGE_TOKEN_WEIGHTS "VISUAL" = 15 ∧ STAGE_TOKEN_WEIGHTS "EDITOR" = 15 ∧
    STAGE_TOKEN_WEIGHTS "PUBLISH" = 5 := by
  decide

/-- C10: getNextStageName is total; on each of the first six names of
STAGE_ORDER it returns the immediately following name, and on PUBLISH as
well as on every string not in STAGE_ORDER it returns none, so an unknown
name is treated like a terminal stage instead of being an error. -/
theorem getNextStageName_total_spec :
    (getNextStageName "RESEARCH" = some "SCRIPT" ∧
     getNextStageName "SCRIPT" = some "VOICE" ∧
     getNextStageName "VOICE" = some "MUSIC" ∧
     getNextStageName "MUSIC" = some "VISUAL" ∧
     getNextStageName "VISUAL" = some "EDITOR" ∧
     getNextStageName "EDITOR" = some "PUBLISH" ∧
     getNextStageName "PUBLISH" = none) ∧
    ∀ s : String, s ∉ STAGE_ORDER → getNextStageName s = none := by
  refine ⟨by decide, ?_⟩
  intro s hs
  simp only [STAGE_ORDER, List.mem_cons, List.not_mem_nil, or_false,
    not_or] at hs
  obtain ⟨h1, h2, h3, h4, h5, h6, h7⟩ := hs
  have e : tsIndexOf STAGE_ORDER s = -1 := by
    simp [tsIndexOf, STAGE_ORDER, Ne.symm h1, Ne.symm h2, Ne.symm h3,
      Ne.symm h4, Ne.symm h5, Ne.symm h6, Ne.symm h7]
  simp [getNextStageName, e]

/-- Witness for the unknown-name branch of the C10 theorem. -/
theorem getNextStageName_total_spec_witness :
    getNextStageName "TRANSLATE" = none :=
  getNextStageName_total_spec.2 "TRANSLATE" (by decide)

/-- Replacing the value of a key by its old value plus an increment grows
the value sum by exactly that increment. -/
theorem sumValues_mapSet (m : List (String × Nat)) (k : String) (amt : Nat) :
    sumValues (mapSet m k ((mapGet m k).getD 0 + amt)) = sumValues m + amt := by
  induction m with
  | nil => simp [mapSet, mapGet, sumValues]
  | cons hd tl ih =>
    obtain ⟨k2, v2⟩ := hd
    by_cases h : k2 = k
    · subst h
      simp [mapSet, mapGet, sumValues]
      omega
    · simp only [mapSet, mapGet, if_neg h, sumValues, List.map_cons,
        List.sum_cons] at ih ⊢
      omega

/-- The value sum of the distribution fold is the sum of the per-stage
floor shares. -/
theorem sumValues_fold (total : Nat) (atts : List (String × String))
    (dist : List (String × Nat)) :
    sumValues (atts.foldl
      (fun d att =>
        mapSet d att.2
          ((mapGet d att.2).getD 0 + total * STAGE_TOKEN_WEIGHTS att.1 / 100))
      dist)
      = sumValues dist
        + (atts.map (fun att => total * STAGE_TOKEN_WEIGHTS att.1 / 100)).sum := by
  induction atts generalizing dist with
  | nil => simp
  | cons a rest ih =>
    simp only [List.foldl_cons, List.map_cons, List.sum_cons, ih,
      sumValues_mapSet]
    omega

/-- The value sum of calculateTokenDistribution is the sum of the
per-attribution floor shares. -/
theorem sumValues_calculateTokenDistribution (total : Nat)
    (atts : List (String × String)) :
    sumValues (calculateTokenDistribution total atts)
      = (atts.map (fun att => total * STAGE_TOKEN_WEIGHTS att.1 / 100)).sum := by
  have h := sumValues_fold total atts []
  simpa [calculateTokenDistribution, sumValues] using h

/-- C1 counterexample: for total 1 with a full attribution set (one entry
per registry stage), every floor share is 0, so the distributed sum is 0,
not 1. -/
theorem distribution_loses_remainder_at_one :
    ((STAGE_ORDER.map (fun s => (s, "0xA"))).map Prod.fst).Perm STAGE_ORDER ∧
    sumValues (calculateTokenDistribution 1
      (STAGE_ORDER.map (fun s => (s, "0xA")))) = 0 ∧ (0 : Nat) ≠ 1 := by
  decide

/-- C1 amended: for a full attribution set (one entry per registry stage,
in any order and with any agent addresses), the distributed sum equals the
total exactly when the total is divisible by 20; the per-stage floor in
the source loses the remainder otherwise. -/
theorem calculateTokenDistribution_conservation (total : Nat)
    (atts : List (String × String))
    (h : (atts.map Prod.fst).Perm STAGE_ORDER) :
    sumValues (calculateTokenDistribution total atts) = total ↔
      total % 20 = 0 := by
  rw [sumValues_calculateTokenDistribution]
  have hmap : atts.map (fun att => total * STAGE_TOKEN_WEIGHTS att.1 / 100)
      = (atts.map Prod.fst).map (fun s => total * STAGE_TOKEN_WEIGHTS s / 100) := by
    simp [List.map_map, Function.comp]
  rw [hmap, (h.map (fun s => total * STAGE_TOKEN_WEIGHTS s / 100)).sum_eq]
  have w1 : STAGE_TOKEN_WEIGHTS "RESEARCH" = 10 := rfl
  have w2 : STAGE_TOKEN_WEIGHTS "SCRIPT" = 25 := rfl
  have w3 : STAGE_TOKEN_WEIGHTS "VOICE" = 20 := rfl
  have w4 : STAGE_TOKEN_WEIGHTS "MUSIC" = 10 := rfl
  have w5 : STAGE_TOKEN_WEIGHTS "VISUAL" = 15 := rfl
  have w6 : STAGE_TOKEN_WEIGHTS "EDITOR" = 15 := rfl
  have w7 : STAGE_TOKEN_WEIGHTS "PUBLISH" = 5 := rfl
  simp only [STAGE_ORDER, List.map_cons, List.map_nil, List.sum_cons,
    List.sum_nil, w1, w2, w3, w4, w5, w6, w7]
  obtain ⟨q, r, hr, ht⟩ : ∃ q r, r < 20 ∧ total = 20 * q + r :=
    ⟨total / 20, total % 20, by omega, by omega⟩
  subst ht
  interval_cases r <;> omega

/-- Witness for the amended C1 theorem at total 40 with a canonical full
attribution set. -/
theorem calculateTokenDistribution_conservation_witness :
    sumValues (calculateTokenDistribution 40
      (STAGE_ORDER.map (fun s => (s, "0xA")))) = 40 :=
  (calculateTokenDistribution_conservation 40
    (STAGE_ORDER.map (fun s => (s, "0xA"))) (by decide)).mpr (by decide)

/-- C8: creating a pipeline succeeds exactly when the topic is non-empty;
an empty topic is rejected with the route error and nothing is created,
and a created pipeline is DRAFT, carries exactly one PENDING stage per
registry name in registry order, and points at RESEARCH. -/
theorem createPipeline_spec (topic : String) (d : Option String) :
    ((createPipelineRoute topic d).isOk = true ↔ topic ≠ "") ∧
    (topic = "" → createPipelineRoute topic d = Except.error "Topic is required") ∧
    (∀ p, createPipelineRoute topic d = Except.ok p →
      p.status = PipelineStatus.DRAFT ∧
      p.stages.map Stage.name = STAGE_ORDER ∧
      p.stages.length = 7 ∧
      (∀ s ∈ p.stages, s.status = StageStatus.PENDING) ∧
      p.currentStage = "RESEARCH" ∧
      p.attributions = []) := by
  by_cases h : topic = ""
  · subst h
    refine ⟨by simp [createPipelineRoute, Except.isOk, Except.toBool], fun _ => rfl, ?_⟩
    intro p hp
    simp [createPipelineRoute] at hp
  · refine ⟨by simp [createPipelineRoute, h, Except.isOk, Except.toBool], fun he => absurd he h, ?_⟩
    intro p hp
    simp only [createPipelineRoute, if_neg h] at hp
    cases hp
    refine ⟨rfl, rfl, rfl, ?_, rfl, rfl⟩
    intro s hs
    simp only [createPipeline, STAGE_ORDER, List.map_cons, List.map_nil,
      List.mem_cons, List.not_mem_nil, or_false] at hs
    rcases hs with h1 | h1 | h1 | h1 | h1 | h1 | h1 <;> rw [h1]

/-- Witness for the C8 theorem at a non-empty and at an empty topic. -/
theorem createPipeline_spec_witness :
    (createPipelineRoute "Why cats purr" none).isOk = true ∧
    createPipelineRoute "" none = Except.error "Topic is required" :=
  ⟨(createPipeline_spec "Why cats purr" none).1.mpr (by decide),
   (createPipeline_spec "" none).2.1 rfl⟩

/-- A stage row with only a name and a status, as created fresh. -/
def mkStage (n : String) (st : StageStatus) : Stage :=
  { name := n, status := st }

/-- A pipeline that was driven to the last stage and then marked FAILED
while PUBLISH was still RUNNING: the first six stages are COMPLETE, the
PUBLISH stage is RUNNING, the pipeline status is FAILED (failStage sets it
on any stage failure without checking other rows). -/
def pFailedAtPublish : Pipeline :=
  { topic := "t"
    status := PipelineStatus.FAILED
    currentStage := "PUBLISH"
    stages :=
      [mkStage "RESEARCH" StageStatus.COMPLETE,
       mkStage "SCRIPT" StageStatus.COMPLETE,
       mkStage "VOICE" StageStatus.COMPLETE,
       mkStage "MUSIC" StageStatus.COMPLETE,
       mkStage "VISUAL" StageStatus.COMPLETE,
       mkStage "EDITOR" StageStatus.COMPLETE,
       mkStage "PUBLISH" StageStatus.RUNNING] }

/-- C5 evaluated at the failing input: completing the terminal PUBLISH
stage of a FAILED pipeline succeeds and rewrites the pipeline status to
COMPLETE — the terminal branch of completeStage writes COMPLETE without
checking the pipeline status, so FAILED is not terminal in the code. -/
theorem completeStage_resurrects_failed_pipeline :
    pFailedAtPublish.status = PipelineStatus.FAILED ∧
    (completeStageRoute pFailedAtPublish "PUBLISH" "out" []).toOption.map
      (fun q => q.1.status) = some PipelineStatus.COMPLETE := by
  decide

/-- Rewriting the stage row named sn commutes with row lookup: the lookup
of sn sees the rewritten row, every other lookup is unchanged, provided
the rewrite preserves the row name. -/
theorem find_map_update (l : List Stage) (sn n : String) (f : Stage → Stage)
    (hf : ∀ s, (f s).name = s.name) :
    (l.map (fun s => if s.name = sn then f s else s)).find?
        (fun s => s.name = n)
      = if n = sn then (l.find? (fun s => s.name = sn)).map f
        else l.find? (fun s => s.name = n) := by
  induction l with
  | nil => simp
  | cons hd tl ih =>
    by_cases h1 : hd.name = sn
    · rw [List.map_cons, if_pos h1]
      by_cases h2 : n = sn
      · subst h2
        rw [List.find?_cons_of_pos _ (by simp [hf, h1]), if_pos rfl,
          List.find?_cons_of_pos _ (by simp [h1])]
        rfl
      · rw [List.find?_cons_of_neg _
            (by simp only [hf, h1, decide_eq_true_eq]
                exact fun hc => h2 hc.symm),
          ih, if_neg h2, if_neg h2,
          List.find?_cons_of_neg _
            (by simp only [h1, decide_eq_true_eq]
                exact fun hc => h2 hc.symm)]
    · rw [List.map_cons, if_neg h1]
      by_cases h2 : n = sn
      · subst h2
        rw [List.find?_cons_of_neg _ (by simpa using h1), ih, if_pos rfl,
          if_pos rfl, List.find?_cons_of_neg _ (by simpa using h1)]
      · by_cases h3 : hd.name = n
        · rw [List.find?_cons_of_pos _ (by simpa using h3), if_neg h2,
            List.find?_cons_of_pos _ (by simpa using h3)]
        · rw [List.find?_cons_of_neg _ (by simpa using h3), ih, if_neg h2,
            if_neg h2, List.find?_cons_of_neg _ (by simpa using h3)]

/-- The stage lookup ignores every pipeline field except stages. -/
theorem findStage_setStage (p : Pipeline) (sn n : String) (f : Stage → Stage)
    (hf : ∀ s, (f s).name = s.name) :
    findStage (setStage p sn f) n
      = if n = sn then (findStage p sn).map f else findStage p n := by
  unfold findStage setStage
  exact find_map_update p.stages sn n f hf

/-- The stage lookup depends only on the stages field. -/
theorem findStage_congr (p q : Pipeline) (h : p.stages = q.stages)
    (n : String) : findStage p n = findStage q n := by
  unfold findStage
  rw [h]

/-- Rewriting the row named sn makes the lookup of sn return the
rewritten row. -/
theorem findStage_setStage_self (p : Pipeline) (sn : String) (st : Stage)
    (hfind : findStage p sn = some st) (f : Stage → Stage)
    (hf : ∀ s, (f s).name = s.name) :
    findStage (setStage p sn f) sn = some (f st) := by
  rw [findStage_setStage p sn sn f hf, if_pos rfl, hfind]
  rfl

/-- C6: the complete route succeeds exactly on a CLAIMED or RUNNING
stage; a successful completion leaves the stage COMPLETE, and a second
completion of the same stage is rejected with the invalid-state route
error, the pipeline state being returned untouched. -/
theorem completeStage_route_terminal (p : Pipeline) (sn out out2 : String)
    (arts arts2 : List String) (st : Stage)
    (hfind : findStage p sn = some st) :
    ((completeStageRoute p sn out arts).isOk = true ↔
      (st.status = StageStatus.CLAIMED ∨ st.status = StageStatus.RUNNING)) ∧
    (∀ q, completeStageRoute p sn out arts = Except.ok q →
      findStage q.1 sn = some q.2 ∧
      q.2.status = StageStatus.COMPLETE ∧
      completeStageRoute q.1 sn out2 arts2 =
        Except.error "Stage cannot be completed") := by
  by_cases hok : st.status = StageStatus.CLAIMED ∨ st.status = StageStatus.RUNNING
  · constructor
    · cases hnx : getNextStageName st.name with
      | none =>
        simp only [completeStageRoute, hfind, if_pos hok, completeStage, hnx]
        exact iff_of_true rfl hok
      | some nxt =>
        simp only [completeStageRoute, hfind, if_pos hok, completeStage, hnx]
        exact iff_of_true rfl hok
    · intro q hq
      simp only [completeStageRoute, hfind, if_pos hok, completeStage] at hq
      have hfind2 : findStage q.1 sn = some q.2 ∧
          q.2.status = StageStatus.COMPLETE := by
        cases hnx : getNextStageName st.name with
        | none =>
          rw [hnx] at hq
          cases hq
          exact ⟨findStage_setStage_self p sn st hfind _ (fun s => rfl), rfl⟩
        | some nxt =>
          rw [hnx] at hq
          cases hq
          exact ⟨findStage_setStage_self p sn st hfind _ (fun s => rfl), rfl⟩
      refine ⟨hfind2.1, hfind2.2, ?_⟩
      have hbad : ¬(q.2.status = StageStatus.CLAIMED ∨
          q.2.status = StageStatus.RUNNING) := by
        rw [hfind2.2]; decide
      simp only [completeStageRoute, hfind2.1, if_neg hbad]
  · constructor
    · cases hr : completeStageRoute p sn out arts with
      | error e =>
        exact iff_of_false (by simp [Except.isOk, Except.toBool]) hok
      | ok q =>
        simp only [completeStageRoute, hfind, if_neg hok] at hr
        cases hr
    · intro q hq
      simp only [completeStageRoute, hfind, if_neg hok] at hq
      cases hq

/-- A running pipeline whose SCRIPT stage has been claimed by an agent,
RESEARCH being complete. -/
def pClaimedScript : Pipeline :=
  { topic := "t"
    status := PipelineStatus.RUNNING
    currentStage := "SCRIPT"
    stages :=
      [mkStage "RESEARCH" StageStatus.COMPLETE,
       { mkStage "SCRIPT" StageStatus.CLAIMED with
           agentId := some "A1", agentName := some "Alice" },
       mkStage "VOICE" StageStatus.PENDING,
       mkStage "MUSIC" StageStatus.PENDING,
       mkStage "VISUAL" StageStatus.PENDING,
       mkStage "EDITOR" StageStatus.PENDING,
       mkStage "PUBLISH" StageStatus.PENDING] }

/-- Witness for the C6 theorem: completing the claimed SCRIPT stage
succeeds once, and chaining a second completion of the same stage yields
the invalid-state route error. -/
theorem completeStage_route_terminal_witness :
    (completeStageRoute pClaimedScript "SCRIPT" "o" []).isOk = true ∧
    ((completeStageRoute pClaimedScript "SCRIPT" "o" []).bind
        (fun q => completeStageRoute q.1 "SCRIPT" "o2" []))
      = Except.error "Stage cannot be completed" := by
  obtain ⟨hiff, hsecond⟩ :=
    completeStage_route_terminal pClaimedScript "SCRIPT" "o" "o2" [] []
      ({ mkStage "SCRIPT" StageStatus.CLAIMED with
           agentId := some "A1", agentName := some "Alice" }) rfl
  have hok : (completeStageRoute pClaimedScript "SCRIPT" "o" []).isOk = true :=
    hiff.mpr (Or.inl rfl)
  refine ⟨hok, ?_⟩
  cases hres : completeStageRoute pClaimedScript "SCRIPT" "o" [] with
  | error e => rw [hres] at hok; simp [Except.isOk, Except.toBool] at hok
  | ok q =>
    have := (hsecond q hres).2.2
    simp [Except.bind, this]

/-- A running pipeline at VOICE pending: RESEARCH and SCRIPT are
COMPLETE, every later stage is PENDING. -/
def pAtVoice : Pipeline :=
  { topic := "P1"
    status := PipelineStatus.RUNNING
    currentStage := "VOICE"
    stages :=
      [mkStage "RESEARCH" StageStatus.COMPLETE,
       mkStage "SCRIPT" StageStatus.COMPLETE,
       mkStage "VOICE" StageStatus.PENDING,
       mkStage "MUSIC" StageStatus.PENDING,
       mkStage "VISUAL" StageStatus.PENDING,
       mkStage "EDITOR" StageStatus.PENDING,
       mkStage "PUBLISH" StageStatus.PENDING] }

/-- A freshly started running pipeline, all stages PENDING. -/
def pFresh (t : String) : Pipeline :=
  { topic := t
    status := PipelineStatus.RUNNING
    currentStage := "RESEARCH"
    stages := STAGE_ORDER.map (fun n => mkStage n StageStatus.PENDING) }

/-- C4 counterexample, the ready-set ordering scenario of the spec: P1 at
VOICE pending, P2 and P3 fresh, stored in creation order.  The code
returns the stages grouped by pipeline in storage order — P1 and its
VOICE stage first — not sorted by stage order ascending across pipelines,
which would put the two RESEARCH stages first. -/
theorem getAvailableStages_not_sorted_by_stage_order :
    getAvailableStages [pAtVoice, pFresh "P2", pFresh "P3"]
      = [(mkStage "VOICE" StageStatus.PENDING, pAtVoice),
         (mkStage "RESEARCH" StageStatus.PENDING, pFresh "P2"),
         (mkStage "RESEARCH" StageStatus.PENDING, pFresh "P3")] ∧
    getAvailableStages [pAtVoice, pFresh "P2", pFresh "P3"]
      ≠ [(mkStage "RESEARCH" StageStatus.PENDING, pFresh "P2"),
         (mkStage "RESEARCH" StageStatus.PENDING, pFresh "P3"),
         (mkStage "VOICE" StageStatus.PENDING, pAtVoice)] := by
  decide

/-- C4 amended: the ready set contains, for every listed RUNNING
pipeline, every PENDING stage whose predecessor is COMPLETE or SKIPPED
(or which is the first stage) — in particular the earliest such stage —
and it is grouped by pipeline in the order the pipeline query returns
pipelines (concatenation of pipeline tables maps to concatenation of
ready sets); within one pipeline the qualifying stages appear in stage
order; no global sort by stage order is applied. -/
theorem getAvailableStages_spec :
    (∀ (dbs : List Pipeline) (p : Pipeline), p ∈ dbs →
      p.status = PipelineStatus.RUNNING →
      ∀ i st, p.stages.get? i = some st → st.status = StageStatus.PENDING →
      (i = 0 ∨ ∃ prev, p.stages.get? (i - 1) = some prev ∧
        (prev.status = StageStatus.COMPLETE ∨
         prev.status = StageStatus.SKIPPED)) →
      (st, p) ∈ getAvailableStages dbs) ∧
    (∀ xs ys : List Pipeline, getAvailableStages (xs ++ ys)
      = getAvailableStages xs ++ getAvailableStages ys) := by
  constructor
  · intro dbs p hp hrun i st hst hpend hprev
    have hq : qualifiesAt p i = some st := by
      unfold qualifiesAt
      rw [hst]
      by_cases hi : i = 0
      · simp [hi, hpend]
      · rcases hprev with h0 | ⟨prev, hpv, hps⟩
        · exact absurd h0 hi
        · have hpv2 : p.stages[i - 1]? = some prev := by
            simpa [List.get?_eq_getElem?] using hpv
          simp [hi, hpend, hpv2, hps]
    have hmem : st ∈ availableInPipeline p := by
      unfold availableInPipeline
      refine List.mem_filterMap.mpr ⟨i, ?_, hq⟩
      refine List.mem_range.mpr ?_
      exact (List.get?_eq_some.mp hst).1
    unfold getAvailableStages
    refine List.mem_flatMap.mpr ⟨p, ?_, ?_⟩
    · refine List.mem_filter.mpr ⟨hp, ?_⟩
      simp [hrun]
    · exact List.mem_map.mpr ⟨st, hmem, rfl⟩
  · intro xs ys
    unfold getAvailableStages
    rw [List.filter_append, List.flatMap_append]

/-- Witness for the containment part of the amended C4 theorem: the
RESEARCH stage of the fresh pipeline P2 is in the ready set of the
three-pipeline scenario. -/
theorem getAvailableStages_spec_witness :
    (mkStage "RESEARCH" StageStatus.PENDING, pFresh "P2")
      ∈ getAvailableStages [pAtVoice, pFresh "P2", pFresh "P3"] :=
  getAvailableStages_spec.1 [pAtVoice, pFresh "P2", pFresh "P3"]
    (pFresh "P2") (by decide) rfl 0 (mkStage "RESEARCH" StageStatus.PENDING)
    rfl rfl (Or.inl rfl)

/-- Whether the stage row named by the STAGE_ORDER entry at index i is
COMPLETE or SKIPPED; false when the index or the row is missing. -/
def stageReadyAt (p : Pipeline) (i : Nat) : Bool :=
  match (STAGE_ORDER.get? i).bind (findStage p) with
  | some pst => decide (pst.status = StageStatus.COMPLETE ∨
      pst.status = StageStatus.SKIPPED)
  | none => false

/-- The claim precondition on the predecessor, phrased from the claim: the
stage row named by the immediate predecessor of sn in the fixed order is
COMPLETE or SKIPPED (vacuous for the first stage). -/
def predecessorReady (p : Pipeline) (sn : String) : Prop :=
  ∀ i, i < STAGE_ORDER.length → STAGE_ORDER.get? (i + 1) = some sn →
    stageReadyAt p i = true

/-- The full C7 property of one claimStage call on the stage row st named
sn: success happens exactly when the pipeline is RUNNING, the stage is
PENDING and the predecessor (if any) is COMPLETE or SKIPPED; on success
the stored stage is st claimed by the given agent; on failure the error
is one of the three precondition messages and no state is produced. -/
def ClaimSpec (p : Pipeline) (sn aid an : String) (st : Stage) : Prop :=
  ((claimStage p sn aid an).isOk = true ↔
    (p.status = PipelineStatus.RUNNING ∧ st.status = StageStatus.PENDING ∧
      predecessorReady p sn)) ∧
  (∀ q, claimStage p sn aid an = Except.ok q →
    q.1 = setStage p sn (fun s =>
      { s with status := StageStatus.CLAIMED,
               agentId := some aid, agentName := some an }) ∧
    q.2 = { st with status := StageStatus.CLAIMED,
                    agentId := some aid, agentName := some an } ∧
    findStage q.1 sn = some q.2) ∧
  (∀ msg, claimStage p sn aid an = Except.error msg →
    msg = "Pipeline not in running state" ∨
    msg = "Stage not available for claiming" ∨
    msg = "Previous stage not complete")

/-- Unfolding of claimStage for a stage with a strictly positive index in
STAGE_ORDER, with the predecessor lookup resolved to its name. -/
theorem claimStage_char (p : Pipeline) (sn aid an pn : String) (st : Stage)
    (hfind : findStage p sn = some st) (j : Nat) (hj : 0 < j)
    (hidx : tsIndexOf STAGE_ORDER sn = (j : Int))
    (hpn : STAGE_ORDER.get? (j - 1) = some pn) :
    claimStage p sn aid an =
      (if p.status ≠ PipelineStatus.RUNNING then
        Except.error "Pipeline not in running state"
      else if st.status ≠ StageStatus.PENDING then
        Except.error "Stage not available for claiming"
      else
        match findStage p pn with
        | some prevStage =>
          if prevStage.status = StageStatus.COMPLETE ∨
             prevStage.status = StageStatus.SKIPPED then
            Except.ok
              (setStage p sn (fun s =>
                 { s with status := StageStatus.CLAIMED,
                          agentId := some aid, agentName := some an }),
               { st with status := StageStatus.CLAIMED,
                         agentId := some aid, agentName := some an })
          else Except.error "Previous stage not complete"
        | none => Except.error "Previous stage not complete") := by
  have hgt : ((j : Int) > 0) := by exact_mod_cast hj
  have hcast : ((j : Int) - 1).toNat = j - 1 := by omega
  simp only [claimStage, hfind, hidx, hcast, hpn, Option.some_bind,
    if_pos hgt]

/-- Unfolding of claimStage for the first stage, RESEARCH, which has no
predecessor check. -/
theorem claimStage_char0 (p : Pipeline) (aid an : String) (st : Stage)
    (hfind : findStage p "RESEARCH" = some st) :
    claimStage p "RESEARCH" aid an =
      (if p.status ≠ PipelineStatus.RUNNING then
        Except.error "Pipeline not in running state"
      else if st.status ≠ StageStatus.PENDING then
        Except.error "Stage not available for claiming"
      else
        Except.ok
          (setStage p "RESEARCH" (fun s =>
             { s with status := StageStatus.CLAIMED,
                      agentId := some aid, agentName := some an }),
           { st with status := StageStatus.CLAIMED,
                     agentId := some aid, agentName := some an })) := by
  have hidx : tsIndexOf STAGE_ORDER "RESEARCH" = (0 : Int) := by decide
  simp only [claimStage, hfind, hidx, if_neg (by decide : ¬((0 : Int) > 0))]

/-- Variant of the claimStage unfolding when the predecessor row is
present. -/
theorem claimStage_char_prevSome (p : Pipeline) (sn aid an pn : String)
    (st prev : Stage) (hfind : findStage p sn = some st) (j : Nat)
    (hj : 0 < j) (hidx : tsIndexOf STAGE_ORDER sn = (j : Int))
    (hpn : STAGE_ORDER.get? (j - 1) = some pn)
    (hm : findStage p pn = some prev) :
    claimStage p sn aid an =
      (if p.status ≠ PipelineStatus.RUNNING then
        Except.error "Pipeline not in running state"
      else if st.status ≠ StageStatus.PENDING then
        Except.error "Stage not available for claiming"
      else if prev.status = StageStatus.COMPLETE ∨
              prev.status = StageStatus.SKIPPED then
        Except.ok
          (setStage p sn (fun s =>
             { s with status := StageStatus.CLAIMED,
                      agentId := some aid, agentName := some an }),
           { st with status := StageStatus.CLAIMED,
                     agentId := some aid, agentName := some an })
      else Except.error "Previous stage not complete") := by
  rw [claimStage_char p sn aid an pn st hfind j hj hidx hpn, hm]

/-- Variant of the claimStage unfolding when the predecessor row is
absent. -/
theorem claimStage_char_prevNone (p : Pipeline) (sn aid an pn : String)
    (st : Stage) (hfind : findStage p sn = some st) (j : Nat)
    (hj : 0 < j) (hidx : tsIndexOf STAGE_ORDER sn = (j : Int))
    (hpn : STAGE_ORDER.get? (j - 1) = some pn)
    (hm : findStage p pn = none) :
    claimStage p sn aid an =
      (if p.status ≠ PipelineStatus.RUNNING then
        Except.error "Pipeline not in running state"
      else if st.status ≠ StageStatus.PENDING then
        Except.error "Stage not available for claiming"
      else Except.error "Previous stage not complete") := by
  rw [claimStage_char p sn aid an pn st hfind j hj hidx hpn, hm]

/-- predecessorReady holds vacuously for the first stage: no STAGE_ORDER
entry has RESEARCH as its successor. -/
theorem predecessorReady_research (p : Pipeline) :
    predecessorReady p "RESEARCH" := by
  intro i hi hget
  have hi7 : i < 7 := by simpa [STAGE_ORDER] using hi
  interval_cases i <;> exact absurd hget (by decide)

/-- When sn occurs in STAGE_ORDER exactly as the successor of index j,
predecessorReady collapses to the readiness of index j. -/
theorem predecessorReady_iff (p : Pipeline) (sn : String) (j : Nat)
    (hjlt : j < STAGE_ORDER.length)
    (huniq : ∀ i, i < STAGE_ORDER.length →
      (STAGE_ORDER.get? (i + 1) = some sn ↔ i = j)) :
    predecessorReady p sn ↔ stageReadyAt p j = true := by
  constructor
  · intro h
    exact h j hjlt ((huniq j hjlt).mpr rfl)
  · intro h i hi hget
    have he := (huniq i hi).mp hget
    subst he
    exact h

/-- The three C7 conclusions for a stage with a predecessor, proved from
the unfolded form. -/
theorem claimStage_case (p : Pipeline) (sn aid an pn : String) (st : Stage)
    (hfind : findStage p sn = some st) (j : Nat) (hj : 0 < j)
    (hidx : tsIndexOf STAGE_ORDER sn = (j : Int))
    (hpn : STAGE_ORDER.get? (j - 1) = some pn)
    (hpr : predecessorReady p sn ↔ stageReadyAt p (j - 1) = true) :
    ClaimSpec p sn aid an st := by
  cases hm : findStage p pn with
  | none =>
    have hchar := claimStage_char_prevNone p sn aid an pn st hfind j hj hidx hpn hm
    have hready : stageReadyAt p (j - 1) = false := by
      unfold stageReadyAt
      rw [hpn, Option.some_bind, hm]
    refine ⟨?_, ?_, ?_⟩
    · rw [hchar]
      by_cases hrun : p.status = PipelineStatus.RUNNING
      · by_cases hpend : st.status = StageStatus.PENDING
        · rw [if_neg (not_not_intro hrun), if_neg (not_not_intro hpend)]
          refine iff_of_false (by simp [Except.isOk, Except.toBool]) ?_
          rintro ⟨-, -, hple⟩
          rw [hpr, hready] at hple
          cases hple
        · rw [if_neg (not_not_intro hrun), if_pos hpend]
          exact iff_of_false (by simp [Except.isOk, Except.toBool])
            (fun h => hpend h.2.1)
      · rw [if_pos hrun]
        exact iff_of_false (by simp [Except.isOk, Except.toBool])
          (fun h => hrun h.1)
    · intro q hq
      rw [hchar] at hq
      by_cases hrun : p.status = PipelineStatus.RUNNING
      · by_cases hpend : st.status = StageStatus.PENDING
        · rw [if_neg (not_not_intro hrun), if_neg (not_not_intro hpend)] at hq
          cases hq
        · rw [if_neg (not_not_intro hrun), if_pos hpend] at hq
          cases hq
      · rw [if_pos hrun] at hq
        cases hq
    · intro msg hmsg
      rw [hchar] at hmsg
      by_cases hrun : p.status = PipelineStatus.RUNNING
      · by_cases hpend : st.status = StageStatus.PENDING
        · rw [if_neg (not_not_intro hrun), if_neg (not_not_intro hpend)] at hmsg
          cases hmsg
          exact Or.inr (Or.inr rfl)
        · rw [if_neg (not_not_intro hrun), if_pos hpend] at hmsg
          cases hmsg
          exact Or.inr (Or.inl rfl)
      · rw [if_pos hrun] at hmsg
        cases hmsg
        exact Or.inl rfl
  | some prev =>
    have hchar := claimStage_char_prevSome p sn aid an pn st prev hfind j hj hidx hpn hm
    have hready : stageReadyAt p (j - 1)
        = decide (prev.status = StageStatus.COMPLETE ∨
            prev.status = StageStatus.SKIPPED) := by
      unfold stageReadyAt
      rw [hpn, Option.some_bind, hm]
    refine ⟨?_, ?_, ?_⟩
    · rw [hchar]
      by_cases hrun : p.status = PipelineStatus.RUNNING
      · by_cases hpend : st.status = StageStatus.PENDING
        · rw [if_neg (not_not_intro hrun), if_neg (not_not_intro hpend)]
          by_cases hps : prev.status = StageStatus.COMPLETE ∨
              prev.status = StageStatus.SKIPPED
          · rw [if_pos hps]
            refine iff_of_true rfl ⟨hrun, hpend, ?_⟩
            rw [hpr, hready]
            simpa using hps
          · rw [if_neg hps]
            refine iff_of_false (by simp [Except.isOk, Except.toBool]) ?_
            rintro ⟨-, -, hple⟩
            rw [hpr, hready] at hple
            simp at hple
            exact hps hple
        · rw [if_neg (not_not_intro hrun), if_pos hpend]
          exact iff_of_false (by simp [Except.isOk, Except.toBool])
            (fun h => hpend h.2.1)
      · rw [if_pos hrun]
        exact iff_of_false (by simp [Except.isOk, Except.toBool])
          (fun h => hrun h.1)
    · intro q hq
      rw [hchar] at hq
      by_cases hrun : p.status = PipelineStatus.RUNNING
      · by_cases hpend : st.status = StageStatus.PENDING
        · rw [if_neg (not_not_intro hrun), if_neg (not_not_intro hpend)] at hq
          by_cases hps : prev.status = StageStatus.COMPLETE ∨
              prev.status = StageStatus.SKIPPED
          · rw [if_pos hps] at hq
            cases hq
            exact ⟨rfl, rfl,
              findStage_setStage_self p sn st hfind _ (fun s => rfl)⟩
          · rw [if_neg hps] at hq
            cases hq
        · rw [if_neg (not_not_intro hrun), if_pos hpend] at hq
          cases hq
      · rw [if_pos hrun] at hq
        cases hq
    · intro msg hmsg
      rw [hchar] at hmsg
      by_cases hrun : p.status = PipelineStatus.RUNNING
      · by_cases hpend : st.status = StageStatus.PENDING
        · rw [if_neg (not_not_intro hrun), if_neg (not_not_intro hpend)] at hmsg
          by_cases hps : prev.status = StageStatus.COMPLETE ∨
              prev.status = StageStatus.SKIPPED
          · rw [if_pos hps] at hmsg
            cases hmsg
          · rw [if_neg hps] at hmsg
            cases hmsg
            exact Or.inr (Or.inr rfl)
        · rw [if_neg (not_not_intro hrun), if_pos hpend] at hmsg
          cases hmsg
          exact Or.inr (Or.inl rfl)
      · rw [if_pos hrun] at hmsg
        cases hmsg
        exact Or.inl rfl

/-- The three C7 conclusions for the first stage. -/
theorem claimStage_case0 (p : Pipeline) (aid an : String) (st : Stage)
    (hfind : findStage p "RESEARCH" = some st) :
    ClaimSpec p "RESEARCH" aid an st := by
  have hchar := claimStage_char0 p aid an st hfind
  refine ⟨?_, ?_, ?_⟩
  · rw [hchar]
    by_cases hrun : p.status = PipelineStatus.RUNNING
    · by_cases hpend : st.status = StageStatus.PENDING
      · rw [if_neg (not_not_intro hrun), if_neg (not_not_intro hpend)]
        exact iff_of_true rfl ⟨hrun, hpend, predecessorReady_research p⟩
      · rw [if_neg (not_not_intro hrun), if_pos hpend]
        exact iff_of_false (by simp [Except.isOk, Except.toBool])
          (fun h => hpend h.2.1)
    · rw [if_pos hrun]
      exact iff_of_false (by simp [Except.isOk, Except.toBool])
        (fun h => hrun h.1)
  · intro q hq
    rw [hchar] at hq
    by_cases hrun : p.status = PipelineStatus.RUNNING
    · by_cases hpend : st.status = StageStatus.PENDING
      · rw [if_neg (not_not_intro hrun), if_neg (not_not_intro hpend)] at hq
        cases hq
        exact ⟨rfl, rfl,
          findStage_setStage_self p "RESEARCH" st hfind _ (fun s => rfl)⟩
      · rw [if_neg (not_not_intro hrun), if_pos hpend] at hq
        cases hq
    · rw [if_pos hrun] at hq
      cases hq
  · intro msg hmsg
    rw [hchar] at hmsg
    by_cases hrun : p.status = PipelineStatus.RUNNING
    · by_cases hpend : st.status = StageStatus.PENDING
      · rw [if_neg (not_not_intro hrun), if_neg (not_not_intro hpend)] at hmsg
        cases hmsg
      · rw [if_neg (not_not_intro hrun), if_pos hpend] at hmsg
        cases hmsg
        exact Or.inr (Or.inl rfl)
    · rw [if_pos hrun] at hmsg
      cases hmsg
      exact Or.inl rfl

/-- C7: for every stage row of a pipeline, claimStage succeeds exactly
when the pipeline is RUNNING, the stage is PENDING, and the immediate
predecessor of the stage in the fixed order — when there is one — is
COMPLETE or SKIPPED; on success it stores the stage as CLAIMED with the
given agent id and name, and on failure it returns one of the three
precondition error messages and produces no state (the source throws
before any write). -/
theorem claimStage_preconditions (p : Pipeline) (sn aid an : String)
    (st : Stage) (hsn : sn ∈ STAGE_ORDER)
    (hfind : findStage p sn = some st) :
    ClaimSpec p sn aid an st := by
  fin_cases hsn
  · exact claimStage_case0 p aid an st hfind
  · exact claimStage_case p "SCRIPT" aid an "RESEARCH" st hfind 1
      (by norm_num) (by decide) (by decide)
      (predecessorReady_iff p "SCRIPT" 0 (by decide) (by decide))
  · exact claimStage_case p "VOICE" aid an "SCRIPT" st hfind 2
      (by norm_num) (by decide) (by decide)
      (predecessorReady_iff p "VOICE" 1 (by decide) (by decide))
  · exact claimStage_case p "MUSIC" aid an "VOICE" st hfind 3
      (by norm_num) (by decide) (by decide)
      (predecessorReady_iff p "MUSIC" 2 (by decide) (by decide))
  · exact claimStage_case p "VISUAL" aid an "MUSIC" st hfind 4
      (by norm_num) (by decide) (by decide)
      (predecessorReady_iff p "VISUAL" 3 (by decide) (by decide))
  · exact claimStage_case p "EDITOR" aid an "VISUAL" st hfind 5
      (by norm_num) (by decide) (by decide)
      (predecessorReady_iff p "EDITOR" 4 (by decide) (by decide))
  · exact claimStage_case p "PUBLISH" aid an "EDITOR" st hfind 6
      (by norm_num) (by decide) (by decide)
      (predecessorReady_iff p "PUBLISH" 5 (by decide) (by decide))

/-- Witness for C7: on a freshly started pipeline, claiming RESEARCH
succeeds and claiming SCRIPT fails, RESEARCH being still PENDING. -/
theorem claimStage_preconditions_witness :
    (claimStage (pFresh "W") "RESEARCH" "A1" "Alice").isOk = true ∧
    (claimStage (pFresh "W") "SCRIPT" "A1" "Alice").isOk = false := by
  constructor
  · exact (claimStage_preconditions (pFresh "W") "RESEARCH" "A1" "Alice"
      (mkStage "RESEARCH" StageStatus.PENDING) (by decide) rfl).1.mpr
      ⟨rfl, rfl, predecessorReady_research (pFresh "W")⟩
  · have h := (claimStage_preconditions (pFresh "W") "SCRIPT" "A1" "Alice"
      (mkStage "SCRIPT" StageStatus.PENDING) (by decide) rfl).1
    cases hv : (claimStage (pFresh "W") "SCRIPT" "A1" "Alice").isOk
    · rfl
    · exfalso
      have hconj := h.mp hv
      have hready : stageReadyAt (pFresh "W") 0 = true :=
        hconj.2.2 0 (by decide) (by decide)
      exact absurd hready (by decide)

/-! ## Reachable pipeline states and the attribution invariant (C2) -/

/-- The stage names of the attribution rows, in insertion order. -/
def attrNames (p : Pipeline) : List String :=
  p.attributions.map Attribution.stageName

/-- The ordering link between two adjacent stage names: whenever the row
named cn has left PENDING, the row named pn is COMPLETE. -/
def chainPair (p : Pipeline) (pn cn : String) : Prop :=
  ∀ st, findStage p cn = some st → st.status ≠ StageStatus.PENDING →
    ∃ pst, findStage p pn = some pst ∧ pst.status = StageStatus.COMPLETE

/-- State invariant of a pipeline driven through the guarded operation
surface. -/
structure Inv (p : Pipeline) : Prop where
  names : p.stages.map Stage.name = STAGE_ORDER
  noSkip : ∀ s ∈ p.stages, s.status ≠ StageStatus.SKIPPED
  attrNodup : (attrNames p).Nodup
  attrComplete : ∀ sn, sn ∈ attrNames p ↔
    (∃ st, findStage p sn = some st ∧ st.status = StageStatus.COMPLETE)
  attrWeight : ∀ a ∈ p.attributions,
    a.percentage = STAGE_TOKEN_WEIGHTS a.stageName
  chain : chainPair p "RESEARCH" "SCRIPT" ∧ chainPair p "SCRIPT" "VOICE" ∧
    chainPair p "VOICE" "MUSIC" ∧ chainPair p "MUSIC" "VISUAL" ∧
    chainPair p "VISUAL" "EDITOR" ∧ chainPair p "EDITOR" "PUBLISH"
  statusComplete : p.status = PipelineStatus.COMPLETE →
    ∃ st, findStage p "PUBLISH" = some st ∧
      st.status = StageStatus.COMPLETE

/-- The pipeline states reachable through the operation surface: creation,
the start route, claims, guarded stage starts, guarded completions with
the attribution append, and guarded failures.  An operation that returns
an error produces no new state. -/
inductive Reachable : Pipeline → Prop
  | created (topic : String) (d : Option String) :
      Reachable (createPipeline topic d)
  | started {p p' : Pipeline} : Reachable p →
      startPipelineRoute p = Except.ok p' → Reachable p'
  | claimed {p : Pipeline} {sn aid an : String} {q : Pipeline × Stage} :
      Reachable p → claimStage p sn aid an = Except.ok q → Reachable q.1
  | stageStarted {p : Pipeline} {sn : String} {q : Pipeline × Stage} :
      Reachable p → startStageOp p sn = Except.ok q → Reachable q.1
  | completed {p : Pipeline} {sn out : String} {arts : List String}
      {q : Pipeline × Stage} : Reachable p →
      completeStageRouteAttr p sn out arts = Except.ok q → Reachable q.1
  | failed {p : Pipeline} {sn err : String} {q : Pipeline × Stage} :
      Reachable p → failStageOp p sn err = Except.ok q → Reachable q.1

/-- Lookup at a name different from the rewritten one is unchanged. -/
theorem findStage_setStage_other (p : Pipeline) (sn n : String)
    (f : Stage → Stage) (hf : ∀ s, (f s).name = s.name) (h : n ≠ sn) :
    findStage (setStage p sn f) n = findStage p n := by
  rw [findStage_setStage p sn n f hf, if_neg h]

/-- A found row is a member of the stage list with the searched name. -/
theorem findStage_name_mem (p : Pipeline) (sn : String) (st : Stage)
    (hfind : findStage p sn = some st)
    (hnames : p.stages.map Stage.name = STAGE_ORDER) :
    sn ∈ STAGE_ORDER ∧ st.name = sn ∧ st ∈ p.stages := by
  have hmem := List.mem_of_find?_eq_some hfind
  have hname : st.name = sn := by simpa using List.find?_some hfind
  refine ⟨?_, hname, hmem⟩
  rw [← hnames]
  exact hname ▸ List.mem_map_of_mem Stage.name hmem

/-- A name-preserving row rewrite preserves the name column. -/
theorem names_setStage (p : Pipeline) (sn : String) (f : Stage → Stage)
    (hf : ∀ s, (f s).name = s.name)
    (hold : p.stages.map Stage.name = STAGE_ORDER) :
    (setStage p sn f).stages.map Stage.name = STAGE_ORDER := by
  rw [← hold]
  unfold setStage
  rw [List.map_map]
  apply List.map_congr_left
  intro s _
  by_cases h : s.name = sn <;> simp [h, hf]

/-- A rewrite that never produces SKIPPED preserves the no-SKIPPED
invariant. -/
theorem noSkip_setStage (p : Pipeline) (sn : String) (f : Stage → Stage)
    (hf2 : ∀ s, (f s).status ≠ StageStatus.SKIPPED)
    (hold : ∀ s ∈ p.stages, s.status ≠ StageStatus.SKIPPED) :
    ∀ s ∈ (setStage p sn f).stages, s.status ≠ StageStatus.SKIPPED := by
  intro s hs
  obtain ⟨o, ho, rfl⟩ := List.mem_map.mp hs
  by_cases h : o.name = sn
  · simpa [h] using hf2 o
  · simpa [h] using hold o ho

/-- A rewrite of a non-COMPLETE row into a non-COMPLETE row preserves the
correspondence between attribution rows and COMPLETE stages. -/
theorem attrComplete_setStage (p : Pipeline) (sn : String) (st : Stage)
    (f : Stage → Stage) (hfind : findStage p sn = some st)
    (hf : ∀ s, (f s).name = s.name)
    (hnc1 : st.status ≠ StageStatus.COMPLETE)
    (hnc2 : (f st).status ≠ StageStatus.COMPLETE)
    (hA : ∀ n, n ∈ attrNames p ↔
      (∃ s2, findStage p n = some s2 ∧ s2.status = StageStatus.COMPLETE)) :
    ∀ n, n ∈ attrNames (setStage p sn f) ↔
      (∃ s2, findStage (setStage p sn f) n = some s2 ∧
        s2.status = StageStatus.COMPLETE) := by
  intro n
  have hsame : attrNames (setStage p sn f) = attrNames p := rfl
  rw [hsame, hA n]
  by_cases hn : n = sn
  · subst hn
    constructor
    · rintro ⟨s2, hs2, hc⟩
      rw [hfind] at hs2
      cases hs2
      exact absurd hc hnc1
    · rintro ⟨s2, hs2, hc⟩
      rw [findStage_setStage_self p n st hfind f hf] at hs2
      cases hs2
      exact absurd hc hnc2
  · rw [findStage_setStage_other p sn n f hf hn]

/-- Core preservation of one chain link under a single row rewrite of a
non-COMPLETE row: the link survives provided the rewritten row, when it is
the link target and leaves PENDING, has a COMPLETE predecessor. -/
theorem chainPair_setStage_preserved (p : Pipeline) (sn : String)
    (st : Stage) (f : Stage → Stage) (hfind : findStage p sn = some st)
    (hf : ∀ s, (f s).name = s.name)
    (hnc : st.status ≠ StageStatus.COMPLETE)
    (pn cn : String) (hne : pn ≠ cn) (hold : chainPair p pn cn)
    (hcur : cn = sn → (f st).status ≠ StageStatus.PENDING →
      ∃ pst, findStage p pn = some pst ∧
        pst.status = StageStatus.COMPLETE) :
    chainPair (setStage p sn f) pn cn := by
  intro st2 hfind2 hnp2
  rw [findStage_setStage p sn cn f hf] at hfind2
  by_cases hc : cn = sn
  · rw [if_pos hc, hfind] at hfind2
    simp only [Option.map_some'] at hfind2
    cases hfind2
    obtain ⟨pst, hpst, hpc⟩ := hcur hc hnp2
    refine ⟨pst, ?_, hpc⟩
    have hpn : pn ≠ sn := fun h => hne (h.trans hc.symm)
    rw [findStage_setStage_other p sn pn f hf hpn]
    exact hpst
  · rw [if_neg hc] at hfind2
    obtain ⟨pst, hpst, hpc⟩ := hold st2 hfind2 hnp2
    by_cases hp : pn = sn
    · exfalso
      rw [hp, hfind] at hpst
      cases hpst
      exact hnc hpc
    · exact ⟨pst, by
        rw [findStage_setStage_other p sn pn f hf hp]; exact hpst, hpc⟩

/-- A row named by a ready STAGE_ORDER index is COMPLETE, once SKIPPED is
excluded by the invariant. -/
theorem prevComplete_of_ready (p : Pipeline) (k : Nat) (pn : String)
    (hpn : STAGE_ORDER.get? k = some pn)
    (hready : stageReadyAt p k = true)
    (hnoSkip : ∀ s ∈ p.stages, s.status ≠ StageStatus.SKIPPED) :
    ∃ pst, findStage p pn = some pst ∧
      pst.status = StageStatus.COMPLETE := by
  unfold stageReadyAt at hready
  rw [hpn, Option.some_bind] at hready
  cases hm2 : findStage p pn with
  | none => rw [hm2] at hready; cases hready
  | some pst =>
    rw [hm2] at hready
    rcases of_decide_eq_true hready with hc | hs
    · exact ⟨pst, rfl, hc⟩
    · exact absurd hs (hnoSkip pst (List.mem_of_find?_eq_some hm2))

/-- predecessorReady at a concrete adjacency yields a COMPLETE
predecessor row. -/
theorem prevComplete_of_predReady (p : Pipeline) (k : Nat) (pn cn : String)
    (hpn : STAGE_ORDER.get? k = some pn)
    (hcn : STAGE_ORDER.get? (k + 1) = some cn)
    (hk : k < STAGE_ORDER.length) (hpr : predecessorReady p cn)
    (hnoSkip : ∀ s ∈ p.stages, s.status ≠ StageStatus.SKIPPED) :
    ∃ pst, findStage p pn = some pst ∧
      pst.status = StageStatus.COMPLETE :=
  prevComplete_of_ready p k pn hpn (hpr k hk hcn) hnoSkip

/-- The PUBLISH witness of a COMPLETE pipeline survives a rewrite of a
non-COMPLETE row. -/
theorem statusComplete_setStage (p : Pipeline) (sn : String) (st : Stage)
    (f : Stage → Stage) (hm : findStage p sn = some st)
    (hf : ∀ s, (f s).name = s.name)
    (hnc : st.status ≠ StageStatus.COMPLETE)
    (hold : ∃ pst, findStage p "PUBLISH" = some pst ∧
      pst.status = StageStatus.COMPLETE) :
    ∃ pst, findStage (setStage p sn f) "PUBLISH" = some pst ∧
      pst.status = StageStatus.COMPLETE := by
  obtain ⟨pst, hp, hc⟩ := hold
  by_cases hpub : ("PUBLISH" : String) = sn
  · exfalso
    rw [hpub, hm] at hp
    cases hp
    exact hnc hc
  · exact ⟨pst, by
      rw [findStage_setStage_other p sn "PUBLISH" f hf hpub]; exact hp, hc⟩

/-- A successful pipeline start was on a DRAFT pipeline and only rewrote
the status. -/
theorem startPipelineRoute_ok (p p' : Pipeline)
    (h : startPipelineRoute p = Except.ok p') :
    p.status = PipelineStatus.DRAFT ∧
    p' = { p with status := PipelineStatus.RUNNING } := by
  unfold startPipelineRoute at h
  by_cases hd : p.status = PipelineStatus.DRAFT
  · rw [if_neg (not_not_intro hd)] at h
    cases h
    exact ⟨hd, rfl⟩
  · rw [if_pos hd] at h
    cases h

/-- A successful guarded stage start was on a CLAIMED row and only
rewrote its status to RUNNING. -/
theorem startStageOp_ok (p : Pipeline) (sn : String) (q : Pipeline × Stage)
    (h : startStageOp p sn = Except.ok q) :
    ∃ st, findStage p sn = some st ∧ st.status = StageStatus.CLAIMED ∧
      q.1 = setStage p sn (fun s => { s with status := StageStatus.RUNNING }) ∧
      q.2 = { st with status := StageStatus.RUNNING } := by
  cases hm : findStage p sn with
  | none =>
    simp only [startStageOp, hm] at h
    cases h
  | some st =>
    simp only [startStageOp, hm] at h
    by_cases hcl : st.status = StageStatus.CLAIMED
    · rw [if_pos hcl] at h
      cases h
      exact ⟨st, rfl, hcl, rfl, rfl⟩
    · rw [if_neg hcl] at h
      cases h

/-- A successful guarded stage failure was on a CLAIMED or RUNNING row; it
rewrote the row to FAILED and the pipeline status to FAILED. -/
theorem failStageOp_ok (p : Pipeline) (sn err : String)
    (q : Pipeline × Stage) (h : failStageOp p sn err = Except.ok q) :
    ∃ st, findStage p sn = some st ∧
      (st.status = StageStatus.CLAIMED ∨ st.status = StageStatus.RUNNING) ∧
      q.1 = { setStage p sn (fun s =>
          { s with status := StageStatus.FAILED, errorText := some err })
          with status := PipelineStatus.FAILED } ∧
      q.2 = { st with status := StageStatus.FAILED,
                      errorText := some err } := by
  cases hm : findStage p sn with
  | none =>
    simp only [failStageOp, hm] at h
    cases h
  | some st =>
    simp only [failStageOp, failStage, hm] at h
    by_cases hcr : st.status = StageStatus.CLAIMED ∨
        st.status = StageStatus.RUNNING
    · rw [if_pos hcr] at h
      cases h
      exact ⟨st, rfl, hcr, rfl, rfl⟩
    · rw [if_neg hcr] at h
      cases h

/-- A successful guarded completion was on a CLAIMED or RUNNING row; the
resulting state is the completed row plus the pipeline update of the
terminal or the non-terminal branch, followed by the attribution
append. -/
theorem completeAttr_ok (p : Pipeline) (sn out : String)
    (arts : List String) (q : Pipeline × Stage)
    (h : completeStageRouteAttr p sn out arts = Except.ok q) :
    ∃ st, findStage p sn = some st ∧
      (st.status = StageStatus.CLAIMED ∨ st.status = StageStatus.RUNNING) ∧
      q.2 = { st with status := StageStatus.COMPLETE,
                      output := some out, artifacts := arts } ∧
      ((getNextStageName st.name = none ∧
        q.1 = recordAttribution
          { setStage p sn (fun s =>
              { s with status := StageStatus.COMPLETE,
                       output := some out, artifacts := arts })
            with status := PipelineStatus.COMPLETE } q.2) ∨
       (∃ nxt, getNextStageName st.name = some nxt ∧
        q.1 = recordAttribution
          { setStage p sn (fun s =>
              { s with status := StageStatus.COMPLETE,
                       output := some out, artifacts := arts })
            with currentStage := nxt } q.2)) := by
  cases hm : findStage p sn with
  | none =>
    simp only [completeStageRouteAttr, completeStageRoute, hm] at h
    cases h
  | some st =>
    simp only [completeStageRouteAttr, completeStageRoute, completeStage,
      hm] at h
    by_cases hcr : st.status = StageStatus.CLAIMED ∨
        st.status = StageStatus.RUNNING
    · rw [if_pos hcr] at h
      cases hnx : getNextStageName st.name with
      | none =>
        rw [hnx] at h
        simp only [] at h
        cases h
        exact ⟨st, rfl, hcr, rfl, Or.inl ⟨hnx, rfl⟩⟩
      | some nxt =>
        rw [hnx] at h
        simp only [] at h
        cases h
        exact ⟨st, rfl, hcr, rfl, Or.inr ⟨nxt, hnx, rfl⟩⟩
    · rw [if_neg hcr] at h
      cases h

/-- recordAttribution does not touch the stage rows. -/
theorem stages_recordAttribution (p : Pipeline) (st : Stage) :
    (recordAttribution p st).stages = p.stages := by
  unfold recordAttribution
  split <;> rfl

/-- recordAttribution does not touch the pipeline status. -/
theorem status_recordAttribution (p : Pipeline) (st : Stage) :
    (recordAttribution p st).status = p.status := by
  unfold recordAttribution
  split <;> rfl

/-- recordAttribution does not change any stage lookup. -/
theorem findStage_recordAttribution (p : Pipeline) (st : Stage)
    (n : String) :
    findStage (recordAttribution p st) n = findStage p n := by
  unfold recordAttribution
  split <;> rfl

/-- A name that has no attribution row makes the duplicate check false. -/
theorem any_stageName_eq_false (p : Pipeline) (sn : String)
    (h : sn ∉ attrNames p) :
    (p.attributions.any (fun a => a.stageName = sn)) = false := by
  rw [List.any_eq_false]
  intro a ha
  simp only [decide_eq_true_eq]
  intro hc
  exact h (hc ▸ List.mem_map_of_mem Attribution.stageName ha)

/-- When the completed stage has no attribution row yet, recordAttribution
appends exactly one row carrying the registry weight. -/
theorem recordAttribution_append (p : Pipeline) (st : Stage)
    (h : (p.attributions.any (fun a => a.stageName = st.name)) = false) :
    recordAttribution p st =
      { p with attributions := p.attributions ++
          [{ stageName := st.name, agentId := st.agentId,
             agentName := st.agentName,
             percentage := STAGE_TOKEN_WEIGHTS st.name }] } := by
  unfold recordAttribution
  rw [if_neg (by simp [h])]

/-- The invariant holds for a freshly created pipeline. -/
theorem inv_created (topic : String) (d : Option String) :
    Inv (createPipeline topic d) := by
  have hstages : (createPipeline topic d).stages =
      STAGE_ORDER.map (fun n =>
        { name := n, status := StageStatus.PENDING }) := rfl
  refine ⟨rfl, ?_, ?_, ?_, ?_, ?_, ?_⟩
  · intro s hs
    rw [hstages] at hs
    obtain ⟨n, -, rfl⟩ := List.mem_map.mp hs
    exact fun hc => nomatch hc
  · exact List.nodup_nil
  · intro sn
    constructor
    · intro h
      cases h
    · rintro ⟨st, hf, hc⟩
      have hmem := List.mem_of_find?_eq_some hf
      rw [hstages] at hmem
      obtain ⟨n, -, rfl⟩ := List.mem_map.mp hmem
      cases hc
  · intro a ha
    cases ha
  · have hpend : ∀ cn st, findStage (createPipeline topic d) cn = some st →
        st.status = StageStatus.PENDING := by
      intro cn st hf
      have hmem := List.mem_of_find?_eq_some hf
      rw [hstages] at hmem
      obtain ⟨n, -, rfl⟩ := List.mem_map.mp hmem
      rfl
    refine ⟨?_, ?_, ?_, ?_, ?_, ?_⟩ <;>
      exact fun st hf hnp => absurd (hpend _ st hf) hnp
  · intro h
    exact nomatch h

/-- The invariant is preserved by the pipeline start route. -/
theorem inv_started (p p' : Pipeline) (hInv : Inv p)
    (h : startPipelineRoute p = Except.ok p') : Inv p' := by
  obtain ⟨-, rfl⟩ := startPipelineRoute_ok p p' h
  exact ⟨hInv.names, hInv.noSkip, hInv.attrNodup, hInv.attrComplete,
    hInv.attrWeight, hInv.chain, fun hc => nomatch hc⟩

/-- The invariant is preserved by a successful claim. -/
theorem inv_claimed (p : Pipeline) (sn aid an : String)
    (q : Pipeline × Stage) (hInv : Inv p)
    (h : claimStage p sn aid an = Except.ok q) : Inv q.1 := by
  cases hm : findStage p sn with
  | none =>
    exfalso
    unfold claimStage at h
    by_cases hrun : p.status ≠ PipelineStatus.RUNNING
    · rw [if_pos hrun] at h
      cases h
    · rw [if_neg hrun] at h
      simp only [hm] at h
      cases h
  | some st =>
    obtain ⟨hsn, hname, hmem⟩ := findStage_name_mem p sn st hm hInv.names
    have spec := claimStage_preconditions p sn aid an st hsn hm
    obtain ⟨hq1, hq2, hfind2⟩ := spec.2.1 q h
    have hok : (claimStage p sn aid an).isOk = true := by rw [h]; rfl
    obtain ⟨hrun, hpend, hpr⟩ := spec.1.mp hok
    rw [hq1]
    have hnc : st.status ≠ StageStatus.COMPLETE := by
      rw [hpend]
      exact fun hc => nomatch hc
    refine ⟨?_, ?_, ?_, ?_, ?_, ?_, ?_⟩
    · exact names_setStage p sn _ (fun s => rfl) hInv.names
    · exact noSkip_setStage p sn _ (fun s hc => nomatch hc) hInv.noSkip
    · exact hInv.attrNodup
    · exact attrComplete_setStage p sn st _ hm (fun s => rfl) hnc
        (fun hc => nomatch hc) hInv.attrComplete
    · exact hInv.attrWeight
    · refine ⟨?_, ?_, ?_, ?_, ?_, ?_⟩
      · exact chainPair_setStage_preserved p sn st
          (fun s => { s with status := StageStatus.CLAIMED,
                             agentId := some aid, agentName := some an })
          hm (fun s => rfl) hnc
          "RESEARCH" "SCRIPT" (by decide) hInv.chain.1
          (fun hc _ => prevComplete_of_predReady p 0 "RESEARCH" "SCRIPT"
            (by decide) (by decide) (by decide)
            (by rw [hc]; exact hpr) hInv.noSkip)
      · exact chainPair_setStage_preserved p sn st
          (fun s => { s with status := StageStatus.CLAIMED,
                             agentId := some aid, agentName := some an })
          hm (fun s => rfl) hnc
          "SCRIPT" "VOICE" (by decide) hInv.chain.2.1
          (fun hc _ => prevComplete_of_predReady p 1 "SCRIPT" "VOICE"
            (by decide) (by decide) (by decide)
            (by rw [hc]; exact hpr) hInv.noSkip)
      · exact chainPair_setStage_preserved p sn st
          (fun s => { s with status := StageStatus.CLAIMED,
                             agentId := some aid, agentName := some an })
          hm (fun s => rfl) hnc
          "VOICE" "MUSIC" (by decide) hInv.chain.2.2.1
          (fun hc _ => prevComplete_of_predReady p 2 "VOICE" "MUSIC"
            (by decide) (by decide) (by decide)
            (by rw [hc]; exact hpr) hInv.noSkip)
      · exact chainPair_setStage_preserved p sn st
          (fun s => { s with status := StageStatus.CLAIMED,
                             agentId := some aid, agentName := some an })
          hm (fun s => rfl) hnc
          "MUSIC" "VISUAL" (by decide) hInv.chain.2.2.2.1
          (fun hc _ => prevComplete_of_predReady p 3 "MUSIC" "VISUAL"
            (by decide) (by decide) (by decide)
            (by rw [hc]; exact hpr) hInv.noSkip)
      · exact chainPair_setStage_preserved p sn st
          (fun s => { s with status := StageStatus.CLAIMED,
                             agentId := some aid, agentName := some an })
          hm (fun s => rfl) hnc
          "VISUAL" "EDITOR" (by decide) hInv.chain.2.2.2.2.1
          (fun hc _ => prevComplete_of_predReady p 4 "VISUAL" "EDITOR"
            (by decide) (by decide) (by decide)
            (by rw [hc]; exact hpr) hInv.noSkip)
      · exact chainPair_setStage_preserved p sn st
          (fun s => { s with status := StageStatus.CLAIMED,
                             agentId := some aid, agentName := some an })
          hm (fun s => rfl) hnc
          "EDITOR" "PUBLISH" (by decide) hInv.chain.2.2.2.2.2
          (fun hc _ => prevComplete_of_predReady p 5 "EDITOR" "PUBLISH"
            (by decide) (by decide) (by decide)
            (by rw [hc]; exact hpr) hInv.noSkip)
    · intro hcs
      have h2 : p.status = PipelineStatus.COMPLETE := hcs
      rw [hrun] at h2
      exact nomatch h2

/-- One chain link survives a rewrite of a row that was already past
PENDING. -/
theorem chainPair_update_nonpending (p : Pipeline) (sn : String)
    (st : Stage) (f : Stage → Stage) (hm : findStage p sn = some st)
    (hf : ∀ s, (f s).name = s.name)
    (hnc : st.status ≠ StageStatus.COMPLETE)
    (hnp : st.status ≠ StageStatus.PENDING)
    (pn cn : String) (hne : pn ≠ cn) (hold : chainPair p pn cn) :
    chainPair (setStage p sn f) pn cn :=
  chainPair_setStage_preserved p sn st f hm hf hnc pn cn hne hold
    (fun hc _ => hold st (by rw [hc]; exact hm) hnp)

/-- All six chain links survive a rewrite of a row that was already past
PENDING. -/
theorem chains_update_nonpending (p : Pipeline) (sn : String) (st : Stage)
    (f : Stage → Stage) (hm : findStage p sn = some st)
    (hf : ∀ s, (f s).name = s.name)
    (hnc : st.status ≠ StageStatus.COMPLETE)
    (hnp : st.status ≠ StageStatus.PENDING)
    (hold : chainPair p "RESEARCH" "SCRIPT" ∧ chainPair p "SCRIPT" "VOICE" ∧
      chainPair p "VOICE" "MUSIC" ∧ chainPair p "MUSIC" "VISUAL" ∧
      chainPair p "VISUAL" "EDITOR" ∧ chainPair p "EDITOR" "PUBLISH") :
    chainPair (setStage p sn f) "RESEARCH" "SCRIPT" ∧
    chainPair (setStage p sn f) "SCRIPT" "VOICE" ∧
    chainPair (setStage p sn f) "VOICE" "MUSIC" ∧
    chainPair (setStage p sn f) "MUSIC" "VISUAL" ∧
    chainPair (setStage p sn f) "VISUAL" "EDITOR" ∧
    chainPair (setStage p sn f) "EDITOR" "PUBLISH" :=
  ⟨chainPair_update_nonpending p sn st f hm hf hnc hnp _ _ (by decide) hold.1,
   chainPair_update_nonpending p sn st f hm hf hnc hnp _ _ (by decide) hold.2.1,
   chainPair_update_nonpending p sn st f hm hf hnc hnp _ _ (by decide) hold.2.2.1,
   chainPair_update_nonpending p sn st f hm hf hnc hnp _ _ (by decide) hold.2.2.2.1,
   chainPair_update_nonpending p sn st f hm hf hnc hnp _ _ (by decide) hold.2.2.2.2.1,
   chainPair_update_nonpending p sn st f hm hf hnc hnp _ _ (by decide) hold.2.2.2.2.2⟩

/-- The invariant is preserved by a successful guarded stage start. -/
theorem inv_stageStarted (p : Pipeline) (sn : String)
    (q : Pipeline × Stage) (hInv : Inv p)
    (h : startStageOp p sn = Except.ok q) : Inv q.1 := by
  obtain ⟨st, hm, hcl, hq1, hq2⟩ := startStageOp_ok p sn q h
  rw [hq1]
  have hnc : st.status ≠ StageStatus.COMPLETE := by
    rw [hcl]; exact fun hc => nomatch hc
  have hnp : st.status ≠ StageStatus.PENDING := by
    rw [hcl]; exact fun hc => nomatch hc
  refine ⟨names_setStage p sn _ (fun s => rfl) hInv.names,
    noSkip_setStage p sn _ (fun s hc => nomatch hc) hInv.noSkip,
    hInv.attrNodup,
    attrComplete_setStage p sn st _ hm (fun s => rfl) hnc
      (fun hc => nomatch hc) hInv.attrComplete,
    hInv.attrWeight,
    chains_update_nonpending p sn st
      (fun s => { s with status := StageStatus.RUNNING }) hm (fun s => rfl)
      hnc hnp hInv.chain,
    ?_⟩
  intro hcs
  have h2 : p.status = PipelineStatus.COMPLETE := hcs
  exact statusComplete_setStage p sn st
    (fun s => { s with status := StageStatus.RUNNING }) hm (fun s => rfl)
    hnc (hInv.statusComplete h2)

/-- The invariant is preserved by a successful guarded stage failure. -/
theorem inv_failed (p : Pipeline) (sn err : String) (q : Pipeline × Stage)
    (hInv : Inv p) (h : failStageOp p sn err = Except.ok q) : Inv q.1 := by
  obtain ⟨st, hm, hcr, hq1, hq2⟩ := failStageOp_ok p sn err q h
  rw [hq1]
  have hnc : st.status ≠ StageStatus.COMPLETE := by
    rcases hcr with hc | hc <;> (rw [hc]; exact fun h2 => nomatch h2)
  have hnp : st.status ≠ StageStatus.PENDING := by
    rcases hcr with hc | hc <;> (rw [hc]; exact fun h2 => nomatch h2)
  exact ⟨names_setStage p sn _ (fun s => rfl) hInv.names,
    noSkip_setStage p sn _ (fun s hc => nomatch hc) hInv.noSkip,
    hInv.attrNodup,
    attrComplete_setStage p sn st _ hm (fun s => rfl) hnc
      (fun hc => nomatch hc) hInv.attrComplete,
    hInv.attrWeight,
    chains_update_nonpending p sn st
      (fun s => { s with status := StageStatus.FAILED,
                         errorText := some err }) hm (fun s => rfl)
      hnc hnp hInv.chain,
    fun hcs => nomatch hcs⟩

/-- The registry stage without a successor is PUBLISH. -/
theorem nextNone_eq_publish :
    ∀ s ∈ STAGE_ORDER, getNextStageName s = none → s = "PUBLISH" := by
  decide

/-- Master lemma for completion: any pipeline state whose stage rows are
the completed rewrite, whose attribution rows are the old ones plus the
one appended row, and whose status admits the PUBLISH witness, satisfies
the invariant. -/
theorem inv_completed_main (p : Pipeline) (sn out : String)
    (arts : List String) (st : Stage) (hInv : Inv p)
    (hm : findStage p sn = some st)
    (hcr : st.status = StageStatus.CLAIMED ∨
      st.status = StageStatus.RUNNING)
    (P2 : Pipeline)
    (hstages : P2.stages = (setStage p sn (fun s =>
      { s with status := StageStatus.COMPLETE,
               output := some out, artifacts := arts })).stages)
    (hattrs : P2.attributions = p.attributions ++
      [{ stageName := sn, agentId := st.agentId,
         agentName := st.agentName,
         percentage := STAGE_TOKEN_WEIGHTS sn }])
    (hstatus : P2.status = PipelineStatus.COMPLETE →
      ∃ pst, findStage P2 "PUBLISH" = some pst ∧
        pst.status = StageStatus.COMPLETE) :
    Inv P2 := by
  have hnc : st.status ≠ StageStatus.COMPLETE := by
    rcases hcr with hc | hc <;> (rw [hc]; exact fun h2 => nomatch h2)
  have hnp : st.status ≠ StageStatus.PENDING := by
    rcases hcr with hc | hc <;> (rw [hc]; exact fun h2 => nomatch h2)
  obtain ⟨hsn, hname, hmem⟩ := findStage_name_mem p sn st hm hInv.names
  have hnotin : sn ∉ attrNames p := by
    intro hin
    obtain ⟨st2, hf2, hc2⟩ := (hInv.attrComplete sn).mp hin
    rw [hm] at hf2
    cases hf2
    exact hnc hc2
  have hfs : ∀ n, findStage P2 n = findStage (setStage p sn (fun s =>
      { s with status := StageStatus.COMPLETE,
               output := some out, artifacts := arts })) n :=
    fun n => findStage_congr _ _ hstages n
  have hAN : attrNames P2 = attrNames p ++ [sn] := by
    unfold attrNames
    rw [hattrs, List.map_append]
    rfl
  refine ⟨?_, ?_, ?_, ?_, ?_, ?_, hstatus⟩
  · rw [hstages]
    exact names_setStage p sn _ (fun s => rfl) hInv.names
  · intro s hs
    rw [hstages] at hs
    exact noSkip_setStage p sn
      (fun s => { s with status := StageStatus.COMPLETE,
                         output := some out, artifacts := arts })
      (fun s2 hc => nomatch hc) hInv.noSkip s hs
  · rw [hAN, List.nodup_append]
    exact ⟨hInv.attrNodup, List.nodup_singleton sn,
      fun a ha hb => by
        rw [List.mem_singleton] at hb
        exact hnotin (hb ▸ ha)⟩
  · intro n
    rw [hAN, hfs n]
    by_cases hn : n = sn
    · subst hn
      refine iff_of_true (List.mem_append_right _ (List.mem_singleton_self n)) ?_
      exact ⟨_, findStage_setStage_self p n st hm _ (fun s => rfl), rfl⟩
    · rw [findStage_setStage_other p sn n
        (fun s => { s with status := StageStatus.COMPLETE,
                           output := some out, artifacts := arts })
        (fun s => rfl) hn]
      rw [List.mem_append]
      constructor
      · intro hor
        rcases hor with hin | hin
        · exact (hInv.attrComplete n).mp hin
        · rw [List.mem_singleton] at hin
          exact absurd hin hn
      · intro hex
        exact Or.inl ((hInv.attrComplete n).mpr hex)
  · intro a ha
    rw [hattrs] at ha
    rcases List.mem_append.mp ha with hin | hin
    · exact hInv.attrWeight a hin
    · rw [List.mem_singleton] at hin
      rw [hin]
  · have hlift : ∀ pn cn, chainPair (setStage p sn (fun s =>
        { s with status := StageStatus.COMPLETE,
                 output := some out, artifacts := arts })) pn cn →
        chainPair P2 pn cn := by
      intro pn cn hcp st2 hf2 hnp2
      rw [hfs] at hf2
      obtain ⟨pst, hp, hc⟩ := hcp st2 hf2 hnp2
      exact ⟨pst, by rw [hfs]; exact hp, hc⟩
    obtain ⟨c1, c2, c3, c4, c5, c6⟩ := chains_update_nonpending p sn st
      (fun s => { s with status := StageStatus.COMPLETE,
                         output := some out, artifacts := arts })
      hm (fun s => rfl) hnc hnp hInv.chain
    exact ⟨hlift _ _ c1, hlift _ _ c2, hlift _ _ c3, hlift _ _ c4,
      hlift _ _ c5, hlift _ _ c6⟩

/-- The invariant is preserved by a successful guarded completion with
its attribution append. -/
theorem inv_completed (p : Pipeline) (sn out : String)
    (arts : List String) (q : Pipeline × Stage) (hInv : Inv p)
    (h : completeStageRouteAttr p sn out arts = Except.ok q) :
    Inv q.1 := by
  obtain ⟨st, hm, hcr, hq2, hbr⟩ := completeAttr_ok p sn out arts q h
  obtain ⟨hsn, hname, hmem⟩ := findStage_name_mem p sn st hm hInv.names
  have hnc : st.status ≠ StageStatus.COMPLETE := by
    rcases hcr with hc | hc <;> (rw [hc]; exact fun h2 => nomatch h2)
  have hnotin : sn ∉ attrNames p := by
    intro hin
    obtain ⟨st2, hf2, hc2⟩ := (hInv.attrComplete sn).mp hin
    rw [hm] at hf2
    cases hf2
    exact hnc hc2
  have hq2name : q.2.name = sn := by rw [hq2]; exact hname
  have hany : (p.attributions.any (fun a => a.stageName = q.2.name))
      = false := by
    rw [hq2name]
    exact any_stageName_eq_false p sn hnotin
  have hattr2 : Attribution.mk q.2.name q.2.agentId q.2.agentName
        (STAGE_TOKEN_WEIGHTS q.2.name)
      = Attribution.mk sn st.agentId st.agentName
        (STAGE_TOKEN_WEIGHTS sn) := by
    simp [hq2, hname]
  have hattrsProof : ∀ P1 : Pipeline, P1.attributions = p.attributions →
      (recordAttribution P1 q.2).attributions = p.attributions ++
        [Attribution.mk sn st.agentId st.agentName
          (STAGE_TOKEN_WEIGHTS sn)] := by
    intro P1 hP1
    unfold recordAttribution
    split
    · next hcond =>
        rw [hP1] at hcond
        rw [hany] at hcond
        exact nomatch hcond
    · show P1.attributions ++ _ = _
      rw [hP1, hattr2]
  rcases hbr with ⟨hnx, hq1⟩ | ⟨nxt, hnx, hq1⟩
  · -- terminal branch: the pipeline is set to COMPLETE
    have hpub : sn = "PUBLISH" := by
      rw [hname] at hnx
      exact nextNone_eq_publish sn hsn hnx
    rw [hq1]
    refine inv_completed_main p sn out arts st hInv hm hcr _
      (by rw [stages_recordAttribution])
      (hattrsProof _ rfl) ?_
    intro hcs
    refine ⟨Stage.mk st.name StageStatus.COMPLETE st.agentId st.agentName
      (some out) arts st.errorText, ?_, rfl⟩
    rw [findStage_recordAttribution]
    show findStage (setStage p sn (fun s =>
      { s with status := StageStatus.COMPLETE,
               output := some out, artifacts := arts })) "PUBLISH" = _
    rw [← hpub]
    exact findStage_setStage_self p sn st hm _ (fun s => rfl)
  · -- non-terminal branch: only the current stage pointer moves
    rw [hq1]
    refine inv_completed_main p sn out arts st hInv hm hcr _
      (by rw [stages_recordAttribution])
      (hattrsProof _ rfl) ?_
    intro hcs
    rw [status_recordAttribution] at hcs
    have h2 : p.status = PipelineStatus.COMPLETE := hcs
    obtain ⟨pst, hp, hcc⟩ := statusComplete_setStage p sn st
      (fun s => { s with status := StageStatus.COMPLETE,
                         output := some out, artifacts := arts })
      hm (fun s => rfl) hnc (hInv.statusComplete h2)
    exact ⟨pst, by rw [findStage_recordAttribution]; exact hp, hcc⟩

/-- Every reachable pipeline state satisfies the invariant. -/
theorem inv_reachable (p : Pipeline) (h : Reachable p) : Inv p := by
  induction h with
  | created topic d => exact inv_created topic d
  | started hr hok ih => exact inv_started _ _ ih hok
  | claimed hr hok ih => exact inv_claimed _ _ _ _ _ ih hok
  | stageStarted hr hok ih => exact inv_stageStarted _ _ _ ih hok
  | completed hr hok ih => exact inv_completed _ _ _ _ _ ih hok
  | failed hr hok ih => exact inv_failed _ _ _ _ ih hok

/-- In an invariant state with status COMPLETE, every registry stage row
is COMPLETE: the chain walks down from the PUBLISH witness. -/
theorem all_complete_of_statusComplete (p : Pipeline) (hInv : Inv p)
    (hc : p.status = PipelineStatus.COMPLETE) :
    ∀ sn ∈ STAGE_ORDER, ∃ st, findStage p sn = some st ∧
      st.status = StageStatus.COMPLETE := by
  obtain ⟨s7, h7, c7⟩ := hInv.statusComplete hc
  obtain ⟨c1, c2, c3, c4, c5, c6⟩ := hInv.chain
  have np : ∀ st : Stage, st.status = StageStatus.COMPLETE →
      st.status ≠ StageStatus.PENDING := by
    intro st h
    rw [h]
    exact fun h2 => nomatch h2
  obtain ⟨s6, h6, c6v⟩ := c6 s7 h7 (np s7 c7)
  obtain ⟨s5, h5, c5v⟩ := c5 s6 h6 (np s6 c6v)
  obtain ⟨s4, h4, c4v⟩ := c4 s5 h5 (np s5 c5v)
  obtain ⟨s3, h3, c3v⟩ := c3 s4 h4 (np s4 c4v)
  obtain ⟨s2, h2, c2v⟩ := c2 s3 h3 (np s3 c3v)
  obtain ⟨s1, h1, c1v⟩ := c1 s2 h2 (np s2 c2v)
  intro sn hsn
  fin_cases hsn
  · exact ⟨s1, h1, c1v⟩
  · exact ⟨s2, h2, c2v⟩
  · exact ⟨s3, h3, c3v⟩
  · exact ⟨s4, h4, c4v⟩
  · exact ⟨s5, h5, c5v⟩
  · exact ⟨s6, h6, c6v⟩
  · exact ⟨s7, h7, c7⟩

/-- A successful guarded completion in an invariant state appends exactly
one attribution row, for the completed stage, with the registry weight and
the agent of the completed row. -/
theorem completeAttr_appends (p : Pipeline) (sn out : String)
    (arts : List String) (q : Pipeline × Stage) (hInv : Inv p)
    (h : completeStageRouteAttr p sn out arts = Except.ok q) :
    ∃ st, findStage p sn = some st ∧
      q.1.attributions = p.attributions ++
        [Attribution.mk sn st.agentId st.agentName
          (STAGE_TOKEN_WEIGHTS sn)] := by
  obtain ⟨st, hm, hcr, hq2, hbr⟩ := completeAttr_ok p sn out arts q h
  obtain ⟨hsn, hname, hmem⟩ := findStage_name_mem p sn st hm hInv.names
  have hnc : st.status ≠ StageStatus.COMPLETE := by
    rcases hcr with hc | hc <;> (rw [hc]; exact fun h2 => nomatch h2)
  have hnotin : sn ∉ attrNames p := by
    intro hin
    obtain ⟨st2, hf2, hc2⟩ := (hInv.attrComplete sn).mp hin
    rw [hm] at hf2
    cases hf2
    exact hnc hc2
  have hq2name : q.2.name = sn := by rw [hq2]; exact hname
  have hany : (p.attributions.any (fun a => a.stageName = q.2.name))
      = false := by
    rw [hq2name]
    exact any_stageName_eq_false p sn hnotin
  have hattr2 : Attribution.mk q.2.name q.2.agentId q.2.agentName
        (STAGE_TOKEN_WEIGHTS q.2.name)
      = Attribution.mk sn st.agentId st.agentName
        (STAGE_TOKEN_WEIGHTS sn) := by
    simp [hq2, hname]
  have hattrsProof : ∀ P1 : Pipeline, P1.attributions = p.attributions →
      (recordAttribution P1 q.2).attributions = p.attributions ++
        [Attribution.mk sn st.agentId st.agentName
          (STAGE_TOKEN_WEIGHTS sn)] := by
    intro P1 hP1
    unfold recordAttribution
    split
    · next hcond =>
        rw [hP1] at hcond
        rw [hany] at hcond
        exact nomatch hcond
    · show P1.attributions ++ _ = _
      rw [hP1, hattr2]
  rcases hbr with ⟨hnx, hq1⟩ | ⟨nxt, hnx, hq1⟩
  · exact ⟨st, hm, by rw [hq1]; exact hattrsProof _ rfl⟩
  · exact ⟨st, hm, by rw [hq1]; exact hattrsProof _ rfl⟩

/-- C2: along any reachable history, every successful completion appends,
within its atomic unit, exactly one Attribution row for the completed
(pipeline, stage name) pair, carrying the registry weight of that stage
and the agent of the completed row; and a pipeline that has reached
COMPLETE carries exactly seven Attributions, one per registry stage name,
each with the registry weight. -/
theorem completeStage_attribution (p : Pipeline) (hreach : Reachable p) :
    (∀ sn out arts q, completeStageRouteAttr p sn out arts = Except.ok q →
      ∃ st, findStage p sn = some st ∧
        q.1.attributions = p.attributions ++
          [Attribution.mk sn st.agentId st.agentName
            (STAGE_TOKEN_WEIGHTS sn)]) ∧
    (p.status = PipelineStatus.COMPLETE →
      (attrNames p).Perm STAGE_ORDER ∧ p.attributions.length = 7 ∧
      ∀ a ∈ p.attributions,
        a.percentage = STAGE_TOKEN_WEIGHTS a.stageName) := by
  have hInv := inv_reachable p hreach
  constructor
  · intro sn out arts q hok
    exact completeAttr_appends p sn out arts q hInv hok
  · intro hc
    have hall := all_complete_of_statusComplete p hInv hc
    have hmem_iff : ∀ a, a ∈ attrNames p ↔ a ∈ STAGE_ORDER := by
      intro a
      constructor
      · intro ha
        obtain ⟨st, hf, -⟩ := (hInv.attrComplete a).mp ha
        exact (findStage_name_mem p a st hf hInv.names).1
      · intro ha
        exact (hInv.attrComplete a).mpr (hall a ha)
    have hperm : (attrNames p).Perm STAGE_ORDER :=
      (List.perm_ext_iff_of_nodup hInv.attrNodup (by decide)).mpr hmem_iff
    refine ⟨hperm, ?_, hInv.attrWeight⟩
    have hlen : (attrNames p).length = STAGE_ORDER.length :=
      hperm.length_eq
    unfold attrNames at hlen
    rw [List.length_map] at hlen
    exact hlen

/-- Project the state out of a successful operation (default on error;
used only on operations that are proved successful). -/
def applyOk2 (r : Except String (Pipeline × Stage)) : Pipeline × Stage :=
  match r with
  | Except.ok q => q
  | Except.error _ => default

/-- The concrete run: a created and started pipeline... -/
def w1 : Pipeline :=
  match startPipelineRoute (createPipeline "Why cats purr" none) with
  | Except.ok p => p
  | Except.error _ => default

/-- ...whose seven stages are claimed and completed in order. -/
def k1 : Pipeline × Stage := applyOk2 (claimStage w1 "RESEARCH" "A1" "Alice")

/-- Run state after completing RESEARCH. -/
def d1 : Pipeline × Stage :=
  applyOk2 (completeStageRouteAttr k1.1 "RESEARCH" "o1" [])

/-- Run state after claiming SCRIPT. -/
def k2 : Pipeline × Stage := applyOk2 (claimStage d1.1 "SCRIPT" "A1" "Alice")

/-- Run state after completing SCRIPT. -/
def d2 : Pipeline × Stage :=
  applyOk2 (completeStageRouteAttr k2.1 "SCRIPT" "o2" [])

/-- Run state after claiming VOICE. -/
def k3 : Pipeline × Stage := applyOk2 (claimStage d2.1 "VOICE" "A1" "Alice")

/-- Run state after completing VOICE. -/
def d3 : Pipeline × Stage :=
  applyOk2 (completeStageRouteAttr k3.1 "VOICE" "o3" [])

/-- Run state after claiming MUSIC. -/
def k4 : Pipeline × Stage := applyOk2 (claimStage d3.1 "MUSIC" "A2" "Bob")

/-- Run state after completing MUSIC. -/
def d4 : Pipeline × Stage :=
  applyOk2 (completeStageRouteAttr k4.1 "MUSIC" "o4" [])

/-- Run state after claiming VISUAL. -/
def k5 : Pipeline × Stage := applyOk2 (claimStage d4.1 "VISUAL" "A2" "Bob")

/-- Run state after completing VISUAL. -/
def d5 : Pipeline × Stage :=
  applyOk2 (completeStageRouteAttr k5.1 "VISUAL" "o5" [])

/-- Run state after claiming EDITOR. -/
def k6 : Pipeline × Stage := applyOk2 (claimStage d5.1 "EDITOR" "A1" "Alice")

/-- Run state after completing EDITOR. -/
def d6 : Pipeline × Stage :=
  applyOk2 (completeStageRouteAttr k6.1 "EDITOR" "o6" [])

/-- Run state after claiming PUBLISH. -/
def k7 : Pipeline × Stage := applyOk2 (claimStage d6.1 "PUBLISH" "A2" "Bob")

/-- Final run state after completing PUBLISH. -/
def d7 : Pipeline × Stage :=
  applyOk2 (completeStageRouteAttr k7.1 "PUBLISH" "o7" [])

/-- The final run state is reachable. -/
theorem reach_d7 : Reachable d7.1 := by
  have h0 := Reachable.created "Why cats purr" none
  have h1 : Reachable w1 := Reachable.started h0
    (show startPipelineRoute (createPipeline "Why cats purr" none)
      = Except.ok w1 by rfl)
  have hk1 : Reachable k1.1 := Reachable.claimed h1
    (show claimStage w1 "RESEARCH" "A1" "Alice" = Except.ok k1 by rfl)
  have hd1 : Reachable d1.1 := Reachable.completed hk1
    (show completeStageRouteAttr k1.1 "RESEARCH" "o1" [] = Except.ok d1
      by rfl)
  have hk2 : Reachable k2.1 := Reachable.claimed hd1
    (show claimStage d1.1 "SCRIPT" "A1" "Alice" = Except.ok k2 by rfl)
  have hd2 : Reachable d2.1 := Reachable.completed hk2
    (show completeStageRouteAttr k2.1 "SCRIPT" "o2" [] = Except.ok d2
      by rfl)
  have hk3 : Reachable k3.1 := Reachable.claimed hd2
    (show claimStage d2.1 "VOICE" "A1" "Alice" = Except.ok k3 by rfl)
  have hd3 : Reachable d3.1 := Reachable.completed hk3
    (show completeStageRouteAttr k3.1 "VOICE" "o3" [] = Except.ok d3
      by rfl)
  have hk4 : Reachable k4.1 := Reachable.claimed hd3
    (show claimStage d3.1 "MUSIC" "A2" "Bob" = Except.ok k4 by rfl)
  have hd4 : Reachable d4.1 := Reachable.completed hk4
    (show completeStageRouteAttr k4.1 "MUSIC" "o4" [] = Except.ok d4
      by rfl)
  have hk5 : Reachable k5.1 := Reachable.claimed hd4
    (show claimStage d4.1 "VISUAL" "A2" "Bob" = Except.ok k5 by rfl)
  have hd5 : Reachable d5.1 := Reachable.completed hk5
    (show completeStageRouteAttr k5.1 "VISUAL" "o5" [] = Except.ok d5
      by rfl)
  have hk6 : Reachable k6.1 := Reachable.claimed hd5
    (show claimStage d5.1 "EDITOR" "A1" "Alice" = Except.ok k6 by rfl)
  have hd6 : Reachable d6.1 := Reachable.completed hk6
    (show completeStageRouteAttr k6.1 "EDITOR" "o6" [] = Except.ok d6
      by rfl)
  have hk7 : Reachable k7.1 := Reachable.claimed hd6
    (show claimStage d6.1 "PUBLISH" "A2" "Bob" = Except.ok k7 by rfl)
  exact Reachable.completed hk7
    (show completeStageRouteAttr k7.1 "PUBLISH" "o7" [] = Except.ok d7
      by rfl)

/-- Witness for C2: the concrete seven-stage run ends with exactly seven
attributions, one per registry stage, each with the registry weight. -/
theorem completeStage_attribution_witness :
    (attrNames d7.1).Perm STAGE_ORDER ∧ d7.1.attributions.length = 7 ∧
    ∀ a ∈ d7.1.attributions,
      a.percentage = STAGE_TOKEN_WEIGHTS a.stageName :=
  (completeStage_attribution d7.1 reach_d7).2 (by decide)

end Cutroom
